import Mathlib

/-!
Verification development for the QuantumFleet VRP optimizer.

This file shallow-embeds the parts of the repository relevant to the
frozen claims:

* src/quantum/quantum_cloud/vrp_data.py      (min-max scaling, preprocessing)
* src/quantum/qaoa_assign.py                 (baseline cirq QAOA engine)
* src/quantum/quantum_aer/qaoa_assign.py     (accelerated qiskit-aer engine)
* src/quantum/quantum_cloud/qaoa_assign.py   (IBM cloud engine)
* src/quantum/quantum_aer/constraints_layer.py (constraint engine)
* src/quantum/quantum_aer/vrp_utils.py       (distance matrix fallback)
* src/quantum/optimizer.py                   (optimize_vrp assignment tail)
* src/quantum_logic/quantum_layer.py         (PQC ranking from counts)

Python floats are modelled as exact rationals, Python dicts as
insertion-ordered association lists, and Python stable list.sort as a
stable insertion sort.  The wall-clock timeout guarding the two repair
loops of the constraint engine is modelled by an explicit fuel
parameter (one unit of fuel per pass of the while loop).  The
transcendental haversine distance is passed as an explicit function
parameter wherever the source calls it.
-/

namespace QuantumFleet

/-! ### Stable sorting, modelling Python list.sort

Python list.sort is stable.  We model it with a stable insertion sort:
an element is inserted before the first element it is allowed to
precede.  lePred a b = true means a placed before b is acceptable when
a originally occurs before b, so with lePred the non-strict comparison
of the sort key the result is exactly Python's stable sort. -/

def sinsert (lePred : α → α → Bool) (a : α) : List α → List α
  | [] => [a]
  | b :: t => if lePred a b then a :: b :: t else b :: sinsert lePred a t

def ssort (lePred : α → α → Bool) : List α → List α
  | [] => []
  | a :: t => sinsert lePred a (ssort lePred t)

theorem sinsert_perm (lePred : α → α → Bool) (a : α) (l : List α) :
    (sinsert lePred a l).Perm (a :: l) := by
  induction l with
  | nil => simp [sinsert]
  | cons b t ih =>
    simp only [sinsert]
    split
    · exact List.Perm.refl _
    · exact (List.Perm.cons b ih).trans (List.Perm.swap a b t)

theorem ssort_perm (lePred : α → α → Bool) (l : List α) :
    (ssort lePred l).Perm l := by
  induction l with
  | nil => simp [ssort]
  | cons a t ih =>
    exact (sinsert_perm lePred a (ssort lePred t)).trans (List.Perm.cons a ih)

theorem count_ssort [DecidableEq α] (lePred : α → α → Bool) (l : List α) (x : α) :
    (ssort lePred l).count x = l.count x :=
  (ssort_perm lePred l).count_eq x

theorem mem_ssort (lePred : α → α → Bool) (l : List α) (x : α) :
    x ∈ ssort lePred l ↔ x ∈ l :=
  (ssort_perm lePred l).mem_iff

/-- Sorting a list that is already pairwise ordered is the identity,
matching Python list.sort on an already sorted list. -/
theorem ssort_of_pairwise (lePred : α → α → Bool) (l : List α)
    (h : l.Pairwise (fun a b => lePred a b = true)) : ssort lePred l = l := by
  induction l with
  | nil => rfl
  | cons a t ih =>
    rcases List.pairwise_cons.mp h with ⟨ha, ht⟩
    simp only [ssort, ih ht]
    cases t with
    | nil => rfl
    | cons b t' => simp [sinsert, ha b (by simp)]

/-! ### Min-max scaling (src/quantum/quantum_cloud/vrp_data.py, minmax_scale)

np.min and np.max over a nonempty array are modelled by folds; the
empty-array case (a ValueError in numpy) is given the junk value 0. -/

def npMin : List ℚ → ℚ
  | [] => 0
  | v :: vs => vs.foldl min v

def npMax : List ℚ → ℚ
  | [] => 0
  | v :: vs => vs.foldl max v

def scaleEps : ℚ := 1 / 1000000000

/-- Embedding of minmax_scale (vrp_data.py lines 86-91) with eps = 1e-9. -/
def minmax_scale (values : List ℚ) : List ℚ :=
  let vmin := npMin values
  let vmax := npMax values
  if |vmax - vmin| < scaleEps then values.map (fun _ => 0)
  else values.map (fun x => (x - vmin) / (vmax - vmin))

/-- Embedding of the priority branch of preprocess_to_features
(vrp_data.py lines 169-174): when the priorities take more than one
distinct value the scaled priority is 1 - minmax, otherwise all ones. -/
def priority_scaled (prioRaw : List ℚ) : List ℚ :=
  if 1 < prioRaw.dedup.length then (minmax_scale prioRaw).map (fun x => 1 - x)
  else prioRaw.map (fun _ => 1)

theorem foldl_min_le_foldl_max (l : List ℚ) :
    ∀ v w : ℚ, v ≤ w → l.foldl min v ≤ l.foldl max w := by
  induction l with
  | nil => intro v w h; simpa using h
  | cons a t ih =>
    intro v w h
    exact ih (min v a) (max w a)
      (le_trans (min_le_left v a) (le_trans h (le_max_left w a)))

theorem npMin_le_npMax (values : List ℚ) (h : values ≠ []) :
    npMin values ≤ npMax values := by
  cases values with
  | nil => exact absurd rfl h
  | cons v vs => exact foldl_min_le_foldl_max vs v v le_rfl

/-! ### Ising coefficients (the three _compute_h_coeffs variants)

Each engine computes h_i = -0.5 * (c_i + A * (K - 2)) and J = A / 2
where K is the number of costs; K - 2 is Python integer arithmetic, so
it is carried out in ℚ after casting (it may be negative). -/

/-- Embedding of _compute_h_coeffs in src/quantum/qaoa_assign.py (baseline). -/
def baseline_compute_h_coeffs (costs : List ℚ) (A : ℚ) : List ℚ × ℚ :=
  let K : ℚ := (costs.length : ℚ)
  (costs.map (fun c => -(1/2) * (c + A * (K - 2))), A / 2)

/-- Embedding of _compute_h_coeffs in src/quantum/quantum_aer/qaoa_assign.py;
the lru_cache and the tuple round-trip do not change the computed value. -/
def aer_compute_h_coeffs (costs : List ℚ) (A : ℚ) : List ℚ × ℚ :=
  let K : ℚ := (costs.length : ℚ)
  (costs.map (fun c => -(1/2) * (c + A * (K - 2))), A / 2)

/-- Embedding of _compute_h_coeffs in src/quantum/quantum_cloud/qaoa_assign.py. -/
def cloud_compute_h_coeffs (costs : List ℚ) (A : ℚ) : List ℚ × ℚ :=
  let K : ℚ := (costs.length : ℚ)
  (costs.map (fun c => -(1/2) * (c + A * (K - 2))), A / 2)

/-! ### Pairwise gate parameters (the three _apply_cost_layer variants)

The baseline cirq engine writes the ZZ interaction as
ZZPowGate(exponent = 2 * gamma * J / pi); the aer and cloud engines
write it as rzz(2 * gamma * J).  Only the baseline divides by pi. -/

/-- Exponent of the cirq ZZPowGate in the baseline cost layer
(src/quantum/qaoa_assign.py line 33). -/
noncomputable def baseline_zz_exponent (gamma J : ℚ) : ℝ :=
  2 * (gamma : ℝ) * (J : ℝ) / Real.pi

/-- Angle of the qiskit rzz gate in the accelerated cost layer
(src/quantum/quantum_aer/qaoa_assign.py line 40). -/
def aer_zz_angle (gamma J : ℚ) : ℚ :=
  2 * gamma * J

/-- Angle of the qiskit rzz gate in the cloud cost layer
(src/quantum/quantum_cloud/qaoa_assign.py line 34). -/
def cloud_zz_angle (gamma J : ℚ) : ℚ :=
  2 * gamma * J

/-! ### PQC ranking from sampled counts
(src/quantum_logic/quantum_layer.py, truck_index_order_from_counts)

The counts dict is modelled as an association list; dict.get(idx, 0)
is List.lookup with default 0.  base.sort(key = count, reverse = True)
is a stable descending sort, modelled by ssort with the non-strict
comparison on the count component. -/

def countsGet (counts : List (ℕ × ℕ)) (idx : ℕ) : ℕ :=
  (counts.lookup idx).getD 0

def truck_index_order_from_counts (counts : List (ℕ × ℕ)) (numTrucks : ℕ) : List ℕ :=
  let base := (List.range numTrucks).map (fun idx => (idx, countsGet counts idx))
  (ssort (fun a b => decide (b.2 ≤ a.2)) base).map Prod.fst

/-! ### Stability of the descending ranking sort -/

/-- Target ordering of the ranking: strictly larger count first, ties
broken by strictly smaller original index. -/
def rankRel (a b : ℕ × ℕ) : Prop :=
  b.2 < a.2 ∨ (a.2 = b.2 ∧ a.1 < b.1)

theorem sinsert_rank_stable (a : ℕ × ℕ) (s : List (ℕ × ℕ))
    (hs : s.Pairwise rankRel) (hidx : ∀ x ∈ s, a.1 < x.1) :
    (sinsert (fun x y => decide (y.2 ≤ x.2)) a s).Pairwise rankRel := by
  induction s with
  | nil => simp [sinsert, rankRel]
  | cons b t ih =>
    rcases List.pairwise_cons.mp hs with ⟨hb, ht⟩
    simp only [sinsert]
    split
    · rename_i hba
      have hba' : b.2 ≤ a.2 := by simpa using hba
      refine List.pairwise_cons.mpr ⟨?_, hs⟩
      intro y hy
      rcases List.mem_cons.mp hy with rfl | hyt
      · rcases lt_or_eq_of_le hba' with hlt | heq
        · exact Or.inl hlt
        · exact Or.inr ⟨heq.symm, hidx y (by simp)⟩
      · have hby := hb y hyt
        have hy2 : y.2 ≤ b.2 := by
          rcases hby with h | h
          · exact le_of_lt h
          · exact le_of_eq h.1.symm
        rcases lt_or_eq_of_le (le_trans hy2 hba') with hlt | heq
        · exact Or.inl hlt
        · exact Or.inr ⟨heq.symm, hidx y (List.mem_cons_of_mem b hyt)⟩
    · rename_i hba
      have hab : a.2 < b.2 := by
        have := of_decide_eq_false (Bool.of_not_eq_true hba)
        omega
      refine List.pairwise_cons.mpr
        ⟨?_, ih ht (fun x hx => hidx x (List.mem_cons_of_mem b hx))⟩
      intro y hy
      have hy' : y = a ∨ y ∈ t :=
        by simpa using (sinsert_perm (fun x y => decide (y.2 ≤ x.2)) a t).mem_iff.mp hy
      rcases hy' with rfl | hyt
      · exact Or.inl hab
      · exact hb y hyt

theorem ssort_rank_stable (l : List (ℕ × ℕ))
    (hl : l.Pairwise (fun x y => x.1 < y.1)) :
    (ssort (fun x y => decide (y.2 ≤ x.2)) l).Pairwise rankRel := by
  induction l with
  | nil => simp [ssort]
  | cons a t ih =>
    rcases List.pairwise_cons.mp hl with ⟨ha, ht⟩
    refine sinsert_rank_stable a _ (ih ht) ?_
    intro x hx
    exact ha x ((ssort_perm _ t).mem_iff.mp hx)

/-- Claim C7: the PQC ranking lists all vehicle indices, sorted by
descending sampled frequency with ties broken by ascending original
index, absent indices counting as frequency 0; and counts
{0:5, 1:10, 2:0} over 3 vehicles yield the order [1, 0, 2]. -/
theorem C7_pqc_ranking_order (counts : List (ℕ × ℕ)) (numTrucks : ℕ) :
    (truck_index_order_from_counts counts numTrucks).Perm (List.range numTrucks) ∧
    (truck_index_order_from_counts counts numTrucks).Pairwise
      (fun i j => countsGet counts j < countsGet counts i ∨
        (countsGet counts i = countsGet counts j ∧ i < j)) ∧
    truck_index_order_from_counts [(0, 5), (1, 10), (2, 0)] 3 = [1, 0, 2] := by
  refine ⟨?_, ?_, by decide⟩
  · unfold truck_index_order_from_counts
    have h1 := (ssort_perm (fun a b : ℕ × ℕ => decide (b.2 ≤ a.2))
      ((List.range numTrucks).map (fun idx => (idx, countsGet counts idx)))).map Prod.fst
    have h2 : ((List.range numTrucks).map
        (fun idx => (idx, countsGet counts idx))).map Prod.fst = List.range numTrucks := by
      simp [List.map_map, Function.comp_def]
    simpa [h2] using h1
  · unfold truck_index_order_from_counts
    have hbase : ((List.range numTrucks).map
        (fun idx => (idx, countsGet counts idx))).Pairwise (fun x y => x.1 < y.1) := by
      rw [List.pairwise_map]
      simpa using List.pairwise_lt_range numTrucks
    have hsorted := ssort_rank_stable _ hbase
    have hmem : ∀ x ∈ ssort (fun a b : ℕ × ℕ => decide (b.2 ≤ a.2))
        ((List.range numTrucks).map (fun idx => (idx, countsGet counts idx))),
        x.2 = countsGet counts x.1 := by
      intro x hx
      have := (ssort_perm _ _).mem_iff.mp hx
      rcases List.mem_map.mp this with ⟨i, _, rfl⟩
      rfl
    rw [List.pairwise_map]
    refine hsorted.imp_of_mem ?_
    intro a b ha hb hab
    rw [← hmem a ha, ← hmem b hb]
    exact hab

/-- Claim C3 as frozen is false at the boundary: for the input
[0, 1e-9] the difference max - min equals 1e-9, which is not greater
than 1e-9, so the claim predicts the all-zero output; minmax_scale
(whose guard is abs(max - min) < 1e-9) scales instead, giving [0, 1]. -/
theorem C3_boundary_counterexample :
    ¬ (scaleEps < npMax [0, scaleEps] - npMin [0, scaleEps]) ∧
    minmax_scale [0, scaleEps] = [0, 1] := by
  have hmax : npMax [0, scaleEps] = scaleEps := by
    simp only [npMax, List.foldl, scaleEps]
    norm_num
  have hmin : npMin [0, scaleEps] = 0 := by
    simp only [npMin, List.foldl, scaleEps]
    norm_num
  constructor
  · rw [hmax, hmin]
    norm_num
  · simp only [minmax_scale, hmax, hmin]
    rw [if_neg (by rw [abs_of_nonneg (by norm_num [scaleEps])]; norm_num)]
    norm_num [scaleEps]

/-- Claim C3 (amended): scaling applies when max - min is at least
1e-9 (not strictly greater), otherwise the output is all zeros; the
priority feature is 1 - minmax when priorities vary and constantly 1
when they are all equal; [10,20,30] scales to [0, 1/2, 1] and [5,5,5]
to [0,0,0]. -/
theorem C3_minmax_scaling (v prio : List ℚ) (hv : v ≠ []) :
    (scaleEps ≤ npMax v - npMin v →
      minmax_scale v = v.map (fun x => (x - npMin v) / (npMax v - npMin v))) ∧
    (npMax v - npMin v < scaleEps →
      minmax_scale v = v.map (fun _ => 0)) ∧
    (1 < prio.dedup.length →
      priority_scaled prio = (minmax_scale prio).map (fun x => 1 - x)) ∧
    (prio.dedup.length ≤ 1 → priority_scaled prio = prio.map (fun _ => 1)) ∧
    minmax_scale [10, 20, 30] = [0, 1/2, 1] ∧
    minmax_scale [5, 5, 5] = [0, 0, 0] := by
  have habs : |npMax v - npMin v| = npMax v - npMin v :=
    abs_of_nonneg (sub_nonneg.mpr (npMin_le_npMax v hv))
  refine ⟨?_, ?_, ?_, ?_, ?_, ?_⟩
  · intro h
    simp only [minmax_scale, habs]
    rw [if_neg (by exact not_lt.mpr h)]
  · intro h
    simp only [minmax_scale, habs]
    rw [if_pos h]
  · intro h
    simp only [priority_scaled]
    rw [if_pos h]
  · intro h
    simp only [priority_scaled]
    rw [if_neg (by omega)]
  · simp only [minmax_scale, npMin, npMax, scaleEps]
    norm_num
  · simp only [minmax_scale, npMin, npMax, scaleEps]
    norm_num

/-- Witness for C3_minmax_scaling at v = [10, 20, 30], prio = [1, 2, 2]. -/
theorem C3_minmax_scaling_witness :
    ([10, 20, 30] : List ℚ) ≠ [] ∧ minmax_scale [10, 20, 30] = [0, 1/2, 1] :=
  ⟨by decide, (C3_minmax_scaling [10, 20, 30] [1, 2, 2] (by decide)).2.2.2.2.1⟩

/-- Claim C4: every QAOA engine variant computes the Ising coefficients
h_i = -0.5 * (c_i + A * (K - 2)) per qubit and the uniform pairwise
coefficient J = A / 2; for costs [1, 2, 3] and A = 2 this gives
h = [-3/2, -2, -5/2] and J = 1. -/
theorem C4_ising_coefficients (costs : List ℚ) (A : ℚ) :
    baseline_compute_h_coeffs costs A =
      (costs.map (fun c => -(1/2) * (c + A * ((costs.length : ℚ) - 2))), A / 2) ∧
    aer_compute_h_coeffs costs A = baseline_compute_h_coeffs costs A ∧
    cloud_compute_h_coeffs costs A = baseline_compute_h_coeffs costs A ∧
    baseline_compute_h_coeffs [1, 2, 3] 2 = ([-(3/2), -2, -(5/2)], 1) := by
  refine ⟨rfl, rfl, rfl, ?_⟩
  simp only [baseline_compute_h_coeffs]
  norm_num

/-- Claim C5: the accelerated and cloud cost layers use the direct
rotation angle 2 * gamma * J for the pairwise ZZ gate, while the
baseline lightweight-simulator variant uses a ZZPowGate exponent of
2 * gamma * J / pi, so the baseline parameter is the other variants'
parameter divided by pi. -/
theorem C5_zz_parameter_conventions (gamma J : ℚ) :
    aer_zz_angle gamma J = 2 * gamma * J ∧
    cloud_zz_angle gamma J = aer_zz_angle gamma J ∧
    baseline_zz_exponent gamma J = (aer_zz_angle gamma J : ℝ) / Real.pi := by
  refine ⟨rfl, rfl, ?_⟩
  simp only [baseline_zz_exponent, aer_zz_angle]
  push_cast
  ring

/-! ### Location identifier extraction
(src/quantum/quantum_cloud/vrp_data.py lines 121-126)

The source reads loc_id = l.get("id") or l.get("location_id") and then
raises ValueError if loc_id is falsy.  Python's or returns its first
operand when that operand is truthy, else the second; None and the
empty string are falsy.  Identifier values are modelled as strings. -/

structure RawLocIds where
  idField : Option String
  locationIdField : Option String
deriving DecidableEq

/-- Python truthiness of an optional string: None and "" are falsy. -/
def pyTruthyStr : Option String → Bool
  | none => false
  | some s => !(s == "")

/-- Python x or y on optional strings. -/
def pyOrStr (a b : Option String) : Option String :=
  if pyTruthyStr a then a else b

def missingIdMsg : String := "Location must have id or location_id field"

/-- Embedding of the identifier extraction in preprocess_to_features:
loc_id = l.get("id") or l.get("location_id"); if not loc_id: raise. -/
def locIdOf (l : RawLocIds) : Except String String :=
  let locId := pyOrStr l.idField l.locationIdField
  if pyTruthyStr locId then Except.ok (locId.getD "") else Except.error missingIdMsg

/-- Claim C10 as frozen is false when "location_id" is present but
itself falsy: for the record with id = "" and location_id = "" the
claim says the present location_id field is used, but preprocessing
raises the ValueError instead. -/
theorem C10_falsy_location_id_counterexample :
    pyTruthyStr (some "") = false ∧
    locIdOf ⟨some "", some ""⟩ = Except.error missingIdMsg ∧
    locIdOf ⟨some "", some ""⟩ ≠ Except.ok "" := by
  refine ⟨rfl, rfl, ?_⟩
  intro h
  exact Except.noConfusion h

/-- Claim C10 (amended): for every location record whose "id" value is
present but falsy, the "id" field is ignored: the "location_id" value
is used when it is present and itself truthy, and when "location_id"
is absent or falsy preprocessing raises the ValueError even though an
identifier field exists in the record. -/
theorem C10_falsy_id_fallback (l : RawLocIds) (v : String) (hid : l.idField = some v)
    (hfalsy : pyTruthyStr (some v) = false) :
    (∀ w, l.locationIdField = some w → pyTruthyStr (some w) = true →
      locIdOf l = Except.ok w) ∧
    (pyTruthyStr l.locationIdField = false → locIdOf l = Except.error missingIdMsg) := by
  have hor : pyOrStr l.idField l.locationIdField = l.locationIdField := by
    rw [pyOrStr, hid, if_neg]
    rw [hfalsy]
    exact Bool.false_ne_true
  constructor
  · intro w hw htruthy
    simp only [locIdOf]
    rw [hor, hw, if_pos htruthy]
    rfl
  · intro hfl
    simp only [locIdOf]
    rw [hor, if_neg]
    rw [hfl]
    exact Bool.false_ne_true

/-- Witness for C10_falsy_id_fallback at id = "", location_id = "X". -/
theorem C10_falsy_id_fallback_witness :
    locIdOf ⟨some "", some "X"⟩ = Except.ok "X" :=
  (C10_falsy_id_fallback ⟨some "", some "X"⟩ "" rfl (by decide)).1 "X" rfl (by decide)

/-! ### Road distance matrix with haversine fallback
(src/quantum/quantum_aer/vrp_utils.py, get_distance_matrix)

The external Google Distance Matrix interaction is abstracted into two
parameters: the configured credential (None when the environment
variable is unset) and the outcome of the network request, either a
failure of any kind (network error, malformed response missing rows)
or a parsed grid of per-pair elements.  Distances are in general
extended rationals because a per-pair non-OK status stores float inf. -/

structure Coord where
  lat : ℚ
  lon : ℚ
deriving DecidableEq

inductive ApiElem where
  | ok (distanceMeters : ℚ) (durationSeconds : ℚ)
  | bad
deriving DecidableEq

inductive Val where
  | fin (q : ℚ)
  | inf
deriving DecidableEq

/-- Embedding of get_distance_matrix.  The try block raises ValueError
on the placeholder credential, then consults the external service; any
exception falls through to the per-pair haversine fallback with the
duration estimated at 30 km/h. -/
def get_distance_matrix (hav : ℚ → ℚ → ℚ → ℚ → ℚ) (apiKey : Option String)
    (api : Except Unit (List (List ApiElem))) (origins dests : List Coord) :
    List (List Val) × List (List Val) :=
  let attempt : Except Unit (List (List Val) × List (List Val)) :=
    if apiKey = some "YOUR_GOOGLE_API_KEY" then Except.error ()
    else match api with
      | Except.error e => Except.error e
      | Except.ok rows =>
        Except.ok
          (rows.map (fun row => row.map (fun e => match e with
              | ApiElem.ok d _ => Val.fin (d / 1000)
              | ApiElem.bad => Val.inf)),
           rows.map (fun row => row.map (fun e => match e with
              | ApiElem.ok _ t => Val.fin (t / 3600)
              | ApiElem.bad => Val.inf)))
  match attempt with
  | Except.ok m => m
  | Except.error _ =>
    (origins.map (fun o => dests.map (fun d => Val.fin (hav o.lat o.lon d.lat d.lon))),
     origins.map (fun o => dests.map (fun d => Val.fin (hav o.lat o.lon d.lat d.lon / 30))))

/-- Claim C8: whenever the external lookup fails (placeholder
credential or any failing or malformed request), the matrices fall
back per pair to the haversine distance with duration distance / 30;
when the lookup succeeds, OK elements convert meters and seconds to km
and hours while non-OK elements become infinite, without failing the
call. -/
theorem C8_distance_matrix_fallback (hav : ℚ → ℚ → ℚ → ℚ → ℚ) (apiKey : Option String)
    (api : Except Unit (List (List ApiElem))) (origins dests : List Coord) :
    (apiKey = some "YOUR_GOOGLE_API_KEY" ∨ api = Except.error () →
      get_distance_matrix hav apiKey api origins dests =
        (origins.map (fun o => dests.map (fun d => Val.fin (hav o.lat o.lon d.lat d.lon))),
         origins.map (fun o => dests.map (fun d =>
           Val.fin (hav o.lat o.lon d.lat d.lon / 30))))) ∧
    (∀ rows, api = Except.ok rows → apiKey ≠ some "YOUR_GOOGLE_API_KEY" →
      get_distance_matrix hav apiKey api origins dests =
        (rows.map (fun row => row.map (fun e => match e with
            | ApiElem.ok d _ => Val.fin (d / 1000)
            | ApiElem.bad => Val.inf)),
         rows.map (fun row => row.map (fun e => match e with
            | ApiElem.ok _ t => Val.fin (t / 3600)
            | ApiElem.bad => Val.inf)))) := by
  constructor
  · intro h
    rcases h with h | h
    · simp [get_distance_matrix, h]
    · subst h
      unfold get_distance_matrix
      by_cases hk : apiKey = some "YOUR_GOOGLE_API_KEY" <;> simp [hk]
  · intro rows hrows hk
    subst hrows
    simp [get_distance_matrix, hk]

/-- Witness for C8_distance_matrix_fallback: with an unset credential
and a failing request, one origin-destination pair falls back to the
haversine value 10 with duration 1/3. -/
theorem C8_distance_matrix_fallback_witness :
    get_distance_matrix (fun a b c d => a + b + c + d) none (Except.error ())
        [⟨1, 2⟩] [⟨3, 4⟩] = ([[Val.fin 10]], [[Val.fin (1/3)]]) := by
  have h := (C8_distance_matrix_fallback (fun a b c d => a + b + c + d) none
    (Except.error ()) [⟨1, 2⟩] [⟨3, 4⟩]).1 (Or.inr rfl)
  rw [h]
  norm_num

/-! ### QAOA circuits as gate lists

The three engine variants build their circuits gate by gate.  We embed
a circuit as a list of gates.  The cirq ZZPowGate of the baseline
engine stores an exponent computed as 2 * gamma * J / pi; since the
only use made of it here is counting gates and comparing conventions,
the constructor stores the numerator 2 * gamma * J and the division by
pi is recorded by baseline_zz_exponent above.  Python abs is embedded
as pyAbs. -/

def pyAbs (q : ℚ) : ℚ :=
  if q < 0 then -q else q

inductive Gate where
  | had (q : ℕ)
  | rz (theta : ℚ) (q : ℕ)
  | rx (theta : ℚ) (q : ℕ)
  | zzpow (expTimesPi : ℚ) (q1 q2 : ℕ)
  | rzz (theta : ℚ) (q1 q2 : ℕ)
  | meas (qs : List ℕ)
deriving DecidableEq

def isZZGate : Gate → Bool
  | Gate.zzpow _ _ _ => true
  | Gate.rzz _ _ _ => true
  | _ => false

def countZZ (gs : List Gate) : ℕ :=
  gs.countP isZZGate

/-- Pairs (i, j) with i < j < K in the nested loop order
for i in range(K): for j in range(i + 1, K). -/
def pairsUpper (K : ℕ) : List (ℕ × ℕ) :=
  (List.range K).flatMap (fun i => ((List.range K).drop (i + 1)).map (fun j => (i, j)))

def aerThreshold : ℚ := 1 / 1000000

def cloudThreshold : ℚ := 1 / 10000000000

/-- Embedding of _apply_cost_layer in src/quantum/qaoa_assign.py: an
rz on every qubit, then a ZZPowGate on every pair when there are at
least two qubits and abs(J) > 0. -/
def baseline_apply_cost_layer (qubits : List ℕ) (gamma : ℚ) (h : List ℚ) (J : ℚ) :
    List Gate :=
  let singles := (List.range qubits.length).map
    (fun i => Gate.rz (2 * gamma * h.getD i 0) (qubits.getD i 0))
  let doubles :=
    if 2 ≤ qubits.length ∧ 0 < pyAbs J then
      (pairsUpper qubits.length).map
        (fun p => Gate.zzpow (2 * gamma * J) (qubits.getD p.1 0) (qubits.getD p.2 0))
    else []
  singles ++ doubles

/-- Embedding of _apply_cost_layer in src/quantum/quantum_cloud/qaoa_assign.py:
rz gates above the 1e-10 threshold, then an rzz on every pair when
there are at least two qubits and abs(J) > 1e-10. -/
def cloud_apply_cost_layer (qubits : List ℕ) (gamma : ℚ) (h : List ℚ) (J : ℚ) :
    List Gate :=
  let singles := ((List.range qubits.length).filter
      (fun i => decide (cloudThreshold < pyAbs (h.getD i 0)))).map
    (fun i => Gate.rz (2 * gamma * h.getD i 0) (qubits.getD i 0))
  let doubles :=
    if 2 ≤ qubits.length ∧ cloudThreshold < pyAbs J then
      (pairsUpper qubits.length).map
        (fun p => Gate.rzz (2 * gamma * J) (qubits.getD p.1 0) (qubits.getD p.2 0))
    else []
  singles ++ doubles

/-- Inner loop for j in range(i + 1, K) of the accelerated cost layer:
break once count reaches max_pairs, otherwise emit the rzz gate and
increment count.  Returns the emitted gates and the final count. -/
def aer_inner_pairs (gamma J : ℚ) (qubits : List ℕ) (i maxPairs : ℕ) :
    List ℕ → ℕ → List Gate × ℕ
  | [], count => ([], count)
  | j :: rest, count =>
    if maxPairs ≤ count then ([], count)
    else
      let r := aer_inner_pairs gamma J qubits i maxPairs rest (count + 1)
      (Gate.rzz (2 * gamma * J) (qubits.getD i 0) (qubits.getD j 0) :: r.1, r.2)

/-- Outer loop for i in range(K) of the accelerated cost layer; the
count persists across iterations of the outer loop. -/
def aer_outer_pairs (gamma J : ℚ) (qubits : List ℕ) (maxPairs : ℕ) :
    List ℕ → ℕ → List Gate × ℕ
  | [], count => ([], count)
  | i :: is, count =>
    let r1 := aer_inner_pairs gamma J qubits i maxPairs
      ((List.range qubits.length).drop (i + 1)) count
    let r2 := aer_outer_pairs gamma J qubits maxPairs is r1.2
    (r1.1 ++ r2.1, r2.2)

/-- Embedding of _apply_cost_layer in src/quantum/quantum_aer/qaoa_assign.py:
rz gates above the 1e-6 threshold, then rzz gates over the pair loops
capped at max_pairs = min(15, K * (K - 1) / 2) when there are at least
two qubits and abs(J) > 1e-6. -/
def aer_apply_cost_layer (qubits : List ℕ) (gamma : ℚ) (h : List ℚ) (J : ℚ) :
    List Gate :=
  let singles := ((List.range qubits.length).filter
      (fun i => decide (aerThreshold < pyAbs (h.getD i 0)))).map
    (fun i => Gate.rz (2 * gamma * h.getD i 0) (qubits.getD i 0))
  let doubles :=
    if 2 ≤ qubits.length ∧ aerThreshold < pyAbs J then
      let maxPairs := min 15 (qubits.length * (qubits.length - 1) / 2)
      (aer_outer_pairs gamma J qubits maxPairs (List.range qubits.length) 0).1
    else []
  singles ++ doubles

/-- Mixer layer, identical in all three variants: an rx(2 * beta) on
every qubit. -/
def qaoa_mixer_layer (qubits : List ℕ) (beta : ℚ) : List Gate :=
  qubits.map (fun q => Gate.rx (2 * beta) q)

/-- Embedding of build_qaoa_circuit in src/quantum/qaoa_assign.py. -/
def baseline_build_qaoa_circuit (costs gammas betas : List ℚ) (A : ℚ) : List Gate :=
  let qubits := List.range costs.length
  let hJ := baseline_compute_h_coeffs costs A
  qubits.map Gate.had ++
    (List.zip gammas betas).flatMap (fun gb =>
      baseline_apply_cost_layer qubits gb.1 hJ.1 hJ.2 ++ qaoa_mixer_layer qubits gb.2) ++
    [Gate.meas qubits]

/-- Embedding of build_qaoa_circuit in src/quantum/quantum_cloud/qaoa_assign.py. -/
def cloud_build_qaoa_circuit (costs gammas betas : List ℚ) (A : ℚ) : List Gate :=
  let qubits := List.range costs.length
  let hJ := cloud_compute_h_coeffs costs A
  qubits.map Gate.had ++
    (List.zip gammas betas).flatMap (fun gb =>
      cloud_apply_cost_layer qubits gb.1 hJ.1 hJ.2 ++ qaoa_mixer_layer qubits gb.2) ++
    [Gate.meas qubits]

/-- Embedding of build_qaoa_circuit in src/quantum/quantum_aer/qaoa_assign.py. -/
def aer_build_qaoa_circuit (costs gammas betas : List ℚ) (A : ℚ) : List Gate :=
  let qubits := List.range costs.length
  let hJ := aer_compute_h_coeffs costs A
  qubits.map Gate.had ++
    (List.zip gammas betas).flatMap (fun gb =>
      aer_apply_cost_layer qubits gb.1 hJ.1 hJ.2 ++ qaoa_mixer_layer qubits gb.2) ++
    [Gate.meas qubits]

/-! ### Counting ZZ gates -/

theorem countZZ_append (l1 l2 : List Gate) :
    countZZ (l1 ++ l2) = countZZ l1 + countZZ l2 :=
  List.countP_append _ _ _

theorem countZZ_map_single (l : List ℕ) (f : ℕ → Gate)
    (hf : ∀ i, isZZGate (f i) = false) : countZZ (l.map f) = 0 := by
  induction l with
  | nil => rfl
  | cons a t ih =>
    simp only [List.map_cons, countZZ, List.countP_cons, hf a]
    simpa [countZZ] using ih

theorem countZZ_map_pair (l : List (ℕ × ℕ)) (f : ℕ × ℕ → Gate)
    (hf : ∀ p, isZZGate (f p) = true) : countZZ (l.map f) = l.length := by
  induction l with
  | nil => rfl
  | cons a t ih =>
    simp only [List.map_cons, countZZ, List.countP_cons, hf a, List.length_cons,
      if_true]
    simp only [countZZ] at ih
    omega

theorem countZZ_map_rzz (l : List ℕ) (theta : ℚ) (q1 : ℕ) (f : ℕ → ℕ) :
    countZZ (l.map (fun j => Gate.rzz theta q1 (f j))) = l.length := by
  induction l with
  | nil => rfl
  | cons a t ih =>
    simp only [List.map_cons, countZZ, List.countP_cons]
    simp only [countZZ] at ih
    simp [isZZGate, ih]

theorem length_pairsUpper_sum (K : ℕ) :
    (pairsUpper K).length = ((List.range K).map (fun i => K - (i + 1))).sum := by
  simp [pairsUpper, List.length_flatMap, List.map_map, Function.comp_def]

theorem sum_map_add_one (l : List ℕ) (g : ℕ → ℕ) :
    (l.map (fun i => g i + 1)).sum = (l.map g).sum + l.length := by
  induction l with
  | nil => rfl
  | cons a t ih =>
    simp only [List.map_cons, List.sum_cons, List.length_cons, ih]
    omega

theorem two_mul_sum_range_sub (K : ℕ) :
    2 * ((List.range K).map (fun i => K - (i + 1))).sum = K * (K - 1) := by
  induction K with
  | zero => rfl
  | succ n ih =>
    have h1 : (List.range (n + 1)).map (fun i => n + 1 - (i + 1)) =
        (List.range (n + 1)).map (fun i => n - i) :=
      List.map_congr_left (fun a _ => by omega)
    have h2 : (List.range n).map (fun i => n - i) =
        (List.range n).map (fun i => (n - (i + 1)) + 1) :=
      List.map_congr_left (fun a ha => by
        have : a < n := List.mem_range.mp ha
        omega)
    rw [h1, List.range_succ, List.map_append, List.sum_append, h2, sum_map_add_one]
    simp only [List.map_cons, List.map_nil, List.sum_cons, List.sum_nil,
      List.length_range, Nat.sub_self]
    cases n with
    | zero => rfl
    | succ m =>
      have hm := ih
      simp only [Nat.add_sub_cancel] at hm ⊢
      nlinarith [hm]

theorem pairsUpper_length (K : ℕ) : (pairsUpper K).length = K * (K - 1) / 2 := by
  have h := two_mul_sum_range_sub K
  rw [length_pairsUpper_sum]
  omega

/-! ### Behaviour of the capped pair loops of the accelerated layer -/

theorem aer_inner_pairs_eq (gamma J : ℚ) (qubits : List ℕ) (i maxPairs : ℕ) :
    ∀ (rest : List ℕ) (count : ℕ),
      aer_inner_pairs gamma J qubits i maxPairs rest count =
        ((rest.take (maxPairs - count)).map
          (fun j => Gate.rzz (2 * gamma * J) (qubits.getD i 0) (qubits.getD j 0)),
         count + min (maxPairs - count) rest.length) := by
  intro rest
  induction rest with
  | nil => intro count; simp [aer_inner_pairs]
  | cons j r ih =>
    intro count
    by_cases hc : maxPairs ≤ count
    · simp [aer_inner_pairs, hc, Nat.sub_eq_zero_of_le hc]
    · obtain ⟨n, hn⟩ : ∃ n, maxPairs - count = n + 1 := ⟨maxPairs - count - 1, by omega⟩
      have hn' : maxPairs - (count + 1) = n := by omega
      simp only [aer_inner_pairs, if_neg hc, ih (count + 1), hn, hn',
        List.take_succ_cons, List.map_cons, List.length_cons, Prod.mk.injEq]
      refine ⟨by trivial, ?_⟩
      omega

/-- Total length of the j-ranges still available to the outer loop. -/
def pairAvail (qubits : List ℕ) (is : List ℕ) : ℕ :=
  (is.map (fun i => ((List.range qubits.length).drop (i + 1)).length)).sum

theorem aer_outer_pairs_snd (gamma J : ℚ) (qubits : List ℕ) (maxPairs : ℕ) :
    ∀ (is : List ℕ) (count : ℕ), count ≤ maxPairs →
      (aer_outer_pairs gamma J qubits maxPairs is count).2 =
        min maxPairs (count + pairAvail qubits is) := by
  intro is
  induction is with
  | nil => intro count hc; simp [aer_outer_pairs, pairAvail]; omega
  | cons i is' ih =>
    intro count hc
    simp only [aer_outer_pairs, aer_inner_pairs_eq, pairAvail, List.map_cons,
      List.sum_cons]
    rw [ih _ (by omega)]
    simp only [pairAvail]
    omega

theorem aer_outer_pairs_len (gamma J : ℚ) (qubits : List ℕ) (maxPairs : ℕ) :
    ∀ (is : List ℕ) (count : ℕ), count ≤ maxPairs →
      (aer_outer_pairs gamma J qubits maxPairs is count).1.length =
        (aer_outer_pairs gamma J qubits maxPairs is count).2 - count := by
  intro is
  induction is with
  | nil => intro count hc; simp [aer_outer_pairs]
  | cons i is' ih =>
    intro count hc
    have hsnd1 : (aer_inner_pairs gamma J qubits i maxPairs
        ((List.range qubits.length).drop (i + 1)) count).2 =
        count + min (maxPairs - count)
          ((List.range qubits.length).drop (i + 1)).length := by
      rw [aer_inner_pairs_eq]
    have hle1 : (aer_inner_pairs gamma J qubits i maxPairs
        ((List.range qubits.length).drop (i + 1)) count).2 ≤ maxPairs := by
      rw [hsnd1]; omega
    have hsnd2 := aer_outer_pairs_snd gamma J qubits maxPairs is' _ hle1
    have hlen1 : (aer_inner_pairs gamma J qubits i maxPairs
        ((List.range qubits.length).drop (i + 1)) count).1.length =
        min (maxPairs - count) ((List.range qubits.length).drop (i + 1)).length := by
      rw [aer_inner_pairs_eq]
      simp [List.length_take]
    simp only [aer_outer_pairs, List.length_append]
    rw [ih _ hle1, hlen1, hsnd1]
    rw [hsnd1] at hsnd2
    rw [hsnd2]
    omega

theorem aer_outer_pairs_countZZ (gamma J : ℚ) (qubits : List ℕ) (maxPairs : ℕ) :
    ∀ (is : List ℕ) (count : ℕ),
      countZZ (aer_outer_pairs gamma J qubits maxPairs is count).1 =
        (aer_outer_pairs gamma J qubits maxPairs is count).1.length := by
  intro is
  induction is with
  | nil => intro count; rfl
  | cons i is' ih =>
    intro count
    simp only [aer_outer_pairs, countZZ_append, List.length_append, ih]
    congr 1
    simp only [aer_inner_pairs_eq]
    rw [countZZ_map_rzz, List.length_map]


theorem pyAbs_pos (q : ℚ) (hq : q ≠ 0) : 0 < pyAbs q := by
  unfold pyAbs
  split
  · rename_i h
    linarith
  · rename_i h
    rcases lt_or_eq_of_le (not_lt.mp h) with h' | h'
    · exact h'
    · exact absurd h'.symm hq

theorem countZZ_map_had (l : List ℕ) : countZZ (l.map Gate.had) = 0 :=
  countZZ_map_single _ _ (fun _ => rfl)

theorem countZZ_map_rzgate (l : List ℕ) (g : ℕ → ℚ) (q : ℕ → ℕ) :
    countZZ (l.map (fun i => Gate.rz (g i) (q i))) = 0 :=
  countZZ_map_single _ _ (fun _ => rfl)

theorem countZZ_map_zzpow (l : List (ℕ × ℕ)) (e : ℚ) (f g : ℕ × ℕ → ℕ) :
    countZZ (l.map (fun p => Gate.zzpow e (f p) (g p))) = l.length :=
  countZZ_map_pair _ _ (fun _ => rfl)

theorem countZZ_map_rzzpair (l : List (ℕ × ℕ)) (e : ℚ) (f g : ℕ × ℕ → ℕ) :
    countZZ (l.map (fun p => Gate.rzz e (f p) (g p))) = l.length :=
  countZZ_map_pair _ _ (fun _ => rfl)

theorem countZZ_mixer (qubits : List ℕ) (beta : ℚ) :
    countZZ (qaoa_mixer_layer qubits beta) = 0 := by
  simp only [qaoa_mixer_layer]
  exact countZZ_map_single _ _ (fun _ => rfl)

theorem countZZ_meas (qs : List ℕ) : countZZ [Gate.meas qs] = 0 := rfl

theorem countZZ_flatMap_layers (l : List (ℚ × ℚ)) (f : ℚ × ℚ → List Gate) (c : ℕ)
    (hf : ∀ gb, countZZ (f gb) = c) : countZZ (l.flatMap f) = l.length * c := by
  induction l with
  | nil => simp [countZZ]
  | cons a t ih =>
    simp only [List.flatMap_cons, countZZ_append, hf a, ih, List.length_cons]
    ring

theorem baseline_layer_countZZ (qubits : List ℕ) (gamma : ℚ) (h : List ℚ) (J : ℚ)
    (h2 : 2 ≤ qubits.length) (hJ : 0 < pyAbs J) :
    countZZ (baseline_apply_cost_layer qubits gamma h J) =
      qubits.length * (qubits.length - 1) / 2 := by
  simp only [baseline_apply_cost_layer, if_pos (And.intro h2 hJ), countZZ_append,
    countZZ_map_rzgate, countZZ_map_zzpow, pairsUpper_length]
  omega

theorem cloud_layer_countZZ (qubits : List ℕ) (gamma : ℚ) (h : List ℚ) (J : ℚ)
    (h2 : 2 ≤ qubits.length) (hJ : cloudThreshold < pyAbs J) :
    countZZ (cloud_apply_cost_layer qubits gamma h J) =
      qubits.length * (qubits.length - 1) / 2 := by
  simp only [cloud_apply_cost_layer, if_pos (And.intro h2 hJ), countZZ_append,
    countZZ_map_rzgate, countZZ_map_zzpow, countZZ_map_rzzpair, pairsUpper_length]
  omega

theorem pairAvail_range (qubits : List ℕ) :
    pairAvail qubits (List.range qubits.length) =
      qubits.length * (qubits.length - 1) / 2 := by
  have h2m := two_mul_sum_range_sub qubits.length
  have hcong : (List.range qubits.length).map
      (fun i => ((List.range qubits.length).drop (i + 1)).length) =
      (List.range qubits.length).map (fun i => qubits.length - (i + 1)) :=
    List.map_congr_left (fun a _ => by
      simp [List.length_drop, List.length_range])
  simp only [pairAvail, hcong]
  omega

theorem aer_layer_countZZ (qubits : List ℕ) (gamma : ℚ) (h : List ℚ) (J : ℚ)
    (h2 : 2 ≤ qubits.length) (hJ : aerThreshold < pyAbs J) :
    countZZ (aer_apply_cost_layer qubits gamma h J) =
      min 15 (qubits.length * (qubits.length - 1) / 2) := by
  simp only [aer_apply_cost_layer, if_pos (And.intro h2 hJ), countZZ_append,
    countZZ_map_rzgate, aer_outer_pairs_countZZ,
    aer_outer_pairs_len _ _ _ _ _ _ (Nat.zero_le _),
    aer_outer_pairs_snd _ _ _ _ _ _ (Nat.zero_le _), pairAvail_range]
  omega

theorem baseline_build_countZZ (costs gammas betas : List ℚ) (A : ℚ)
    (hK : 2 ≤ costs.length) (hlen : gammas.length = betas.length)
    (hJ : 0 < pyAbs (A / 2)) :
    countZZ (baseline_build_qaoa_circuit costs gammas betas A) =
      gammas.length * (costs.length * (costs.length - 1) / 2) := by
  have hzl : (List.zip gammas betas).length = gammas.length := by
    rw [List.length_zip]
    omega
  have hq : 2 ≤ (List.range costs.length).length := by
    simpa [List.length_range] using hK
  simp only [baseline_build_qaoa_circuit, baseline_compute_h_coeffs, countZZ_append,
    countZZ_map_had, countZZ_meas]
  rw [countZZ_flatMap_layers _ _ (costs.length * (costs.length - 1) / 2)
    (fun gb => by
      rw [countZZ_append, baseline_layer_countZZ _ _ _ _ hq hJ, countZZ_mixer,
        List.length_range]
      omega), hzl]
  simp

theorem cloud_build_countZZ (costs gammas betas : List ℚ) (A : ℚ)
    (hK : 2 ≤ costs.length) (hlen : gammas.length = betas.length)
    (hJ : cloudThreshold < pyAbs (A / 2)) :
    countZZ (cloud_build_qaoa_circuit costs gammas betas A) =
      gammas.length * (costs.length * (costs.length - 1) / 2) := by
  have hzl : (List.zip gammas betas).length = gammas.length := by
    rw [List.length_zip]
    omega
  have hq : 2 ≤ (List.range costs.length).length := by
    simpa [List.length_range] using hK
  simp only [cloud_build_qaoa_circuit, cloud_compute_h_coeffs, countZZ_append,
    countZZ_map_had, countZZ_meas]
  rw [countZZ_flatMap_layers _ _ (costs.length * (costs.length - 1) / 2)
    (fun gb => by
      rw [countZZ_append, cloud_layer_countZZ _ _ _ _ hq hJ, countZZ_mixer,
        List.length_range]
      omega), hzl]
  simp

theorem aer_build_countZZ (costs gammas betas : List ℚ) (A : ℚ)
    (hK : 2 ≤ costs.length) (hlen : gammas.length = betas.length)
    (hJ : aerThreshold < pyAbs (A / 2)) :
    countZZ (aer_build_qaoa_circuit costs gammas betas A) =
      gammas.length * min 15 (costs.length * (costs.length - 1) / 2) := by
  have hzl : (List.zip gammas betas).length = gammas.length := by
    rw [List.length_zip]
    omega
  have hq : 2 ≤ (List.range costs.length).length := by
    simpa [List.length_range] using hK
  simp only [aer_build_qaoa_circuit, aer_compute_h_coeffs, countZZ_append,
    countZZ_map_had, countZZ_meas]
  rw [countZZ_flatMap_layers _ _ (min 15 (costs.length * (costs.length - 1) / 2))
    (fun gb => by
      rw [countZZ_append, aer_layer_countZZ _ _ _ _ hq hJ, countZZ_mixer,
        List.length_range]
      omega), hzl]
  simp

/-- Claim C6 as frozen is false for the accelerated variant: its cost
layer caps the number of pairwise ZZ gates at
max_pairs = min(15, K * (K - 1) / 2).  For K = 7 qubits (21 pairs) and
nonzero J = A / 2 = 1, the single cost layer contains 15 ZZ gates, not
K * (K - 1) / 2 = 21. -/
theorem C6_aer_pair_cap_counterexample :
    2 ≤ ([0, 0, 0, 0, 0, 0, 0] : List ℚ).length ∧
    (aer_compute_h_coeffs [0, 0, 0, 0, 0, 0, 0] 2).2 ≠ 0 ∧
    countZZ (aer_build_qaoa_circuit [0, 0, 0, 0, 0, 0, 0] [1] [1] 2) = 15 ∧
    (15 : ℕ) ≠ [(1 : ℚ)].length *
      (([(0 : ℚ), 0, 0, 0, 0, 0, 0].length *
        ([(0 : ℚ), 0, 0, 0, 0, 0, 0].length - 1)) / 2) := by
  refine ⟨by norm_num, ?_, ?_, by norm_num⟩
  · simp only [aer_compute_h_coeffs]
    norm_num
  · have h := aer_build_countZZ [0, 0, 0, 0, 0, 0, 0] [1] [1] 2 (by norm_num) rfl
      (by norm_num [aerThreshold, pyAbs])
    rw [h]
    norm_num

/-- Claim C6 (amended): with at least two qubits, each cost layer of
the baseline variant contains exactly K * (K - 1) / 2 ZZ gates
whenever J = A / 2 is nonzero, and so does each cost layer of the
cloud variant whenever abs(J) exceeds its 1e-10 threshold; the
accelerated variant instead contains min(15, K * (K - 1) / 2) ZZ gates
per layer whenever abs(J) exceeds its 1e-6 threshold.  Stated over
whole circuits: p layers contribute p times the per-layer count. -/
theorem C6_zz_gates_per_layer (costs gammas betas : List ℚ) (A : ℚ)
    (hK : 2 ≤ costs.length) (hlen : gammas.length = betas.length) :
    (A ≠ 0 →
      countZZ (baseline_build_qaoa_circuit costs gammas betas A) =
        gammas.length * (costs.length * (costs.length - 1) / 2)) ∧
    (cloudThreshold < pyAbs (A / 2) →
      countZZ (cloud_build_qaoa_circuit costs gammas betas A) =
        gammas.length * (costs.length * (costs.length - 1) / 2)) ∧
    (aerThreshold < pyAbs (A / 2) →
      countZZ (aer_build_qaoa_circuit costs gammas betas A) =
        gammas.length * min 15 (costs.length * (costs.length - 1) / 2)) :=
  ⟨fun hA => baseline_build_countZZ costs gammas betas A hK hlen
      (pyAbs_pos _ (div_ne_zero hA two_ne_zero)),
   fun hJ => cloud_build_countZZ costs gammas betas A hK hlen hJ,
   fun hJ => aer_build_countZZ costs gammas betas A hK hlen hJ⟩

/-- Witness for C6_zz_gates_per_layer at costs = [1, 2], one layer,
A = 2: each variant's circuit holds exactly one ZZ gate. -/
theorem C6_zz_gates_per_layer_witness :
    countZZ (baseline_build_qaoa_circuit [1, 2] [1] [1] 2) = 1 ∧
    countZZ (cloud_build_qaoa_circuit [1, 2] [1] [1] 2) = 1 ∧
    countZZ (aer_build_qaoa_circuit [1, 2] [1] [1] 2) = 1 := by
  obtain ⟨h1, h2, h3⟩ := C6_zz_gates_per_layer [1, 2] [1] [1] 2 (by norm_num) rfl
  refine ⟨?_, ?_, ?_⟩
  · have := h1 (by norm_num)
    simpa using this
  · have := h2 (by norm_num [cloudThreshold, pyAbs])
    simpa using this
  · have := h3 (by norm_num [aerThreshold, pyAbs])
    simpa using this

/-! ### Constraint engine data model
(src/quantum/quantum_aer/constraints_layer.py)

The assignments dict (vehicle id to list of location ids) is an
insertion-ordered association list.  Python dict assignment replaces
the value of the first matching key or appends a new entry;
dict.setdefault(k, []).append(x) appends to the existing list or
inserts the key at the end.  assignments[k].append(x) on a missing key
would raise KeyError, so dict_append leaves the list unchanged there;
the theorems assume the key exists.  In-place mutation of a looked-up
list is modelled by writing the updated list back at once, which
coincides with Python because every read goes through the dict. -/

abbrev Assignments := List (String × List String)

def alookup {β : Type} : List (String × β) → String → Option β
  | [], _ => none
  | (k', v) :: t, k => if k' = k then some v else alookup t k

def aget (A : Assignments) (k : String) : List String :=
  (alookup A k).getD []

def aset : Assignments → String → List String → Assignments
  | [], k, v => [(k, v)]
  | (k', w) :: t, k, v => if k' = k then (k, v) :: t else (k', w) :: aset t k v

def setdefault_append : Assignments → String → String → Assignments
  | [], k, x => [(k, [x])]
  | (k', w) :: t, k, x =>
    if k' = k then (k', w ++ [x]) :: t else (k', w) :: setdefault_append t k x

def dict_append : Assignments → String → String → Assignments
  | [], _, _ => []
  | (k', w) :: t, k, x =>
    if k' = k then (k', w ++ [x]) :: t else (k', w) :: dict_append t k x

/-- Number of occurrences of location id x across all vehicles' lists. -/
def countAll (A : Assignments) (x : String) : ℕ :=
  (A.map (fun p => p.2.count x)).sum

structure Vehicle where
  capacity : ℚ
  vtype : String
  current_location : String
deriving DecidableEq

structure Depot where
  depotId : String
  lat : ℚ
  lon : ℚ
deriving DecidableEq

structure LocRow where
  location_id : String
  lat : ℚ
  lon : ℚ
  demand : ℚ
  priority : ℤ
deriving DecidableEq

structure Constraints where
  max_stops_per_vehicle : ℕ
  max_distance_per_vehicle : ℚ
  max_time_per_vehicle : ℚ
  priority_handling : Bool
  allowed_vehicle_types : List String
deriving DecidableEq

def capTol : ℚ := 1 / 1000000

def defaultDepot : Depot := ⟨"", 0, 0⟩

def defaultVehicle : Vehicle := ⟨0, "", ""⟩

def defaultLocRow : LocRow := ⟨"", 0, 0, 0, 0⟩

/-- Dict comprehension {r.location_id: r for r in loc_df}: with
duplicate ids the last row wins, hence the reverse. -/
def rowFor (locRows : List LocRow) (lid : String) : Option LocRow :=
  locRows.reverse.find? (fun r => decide (r.location_id = lid))

def demand_by_loc (locRows : List LocRow) (lid : String) : ℚ :=
  ((rowFor locRows lid).getD defaultLocRow).demand

def prio_by_loc (locRows : List LocRow) (lid : String) : ℤ :=
  ((rowFor locRows lid).getD defaultLocRow).priority

/-- Embedding of compute_depot_for_vehicle: the vehicle's depot when
its current_location is a known depot id, else the first depot (the
empty-depots KeyError case is given the junk default). -/
def compute_depot_for_vehicle (veh : Vehicle) (depots : List Depot) : Depot :=
  match depots.find? (fun d => decide (d.depotId = veh.current_location)) with
  | some d => d
  | none => depots.headD defaultDepot

def vehicleFor (vehiclesL : List (String × Vehicle)) (vid : String) : Vehicle :=
  (alookup vehiclesL vid).getD defaultVehicle

/-- Embedding of estimate_total_distance_km, read at one vehicle id:
total_dist.get(vid, 0.0) is 0 when vid is not an assignment key, else
the sum of haversine depot-to-location distances over its list.  A
location id missing from loc_df (a KeyError in the source, unreachable
under the preconditions used here) contributes the junk default row. -/
def estimate_total_distance_km (hav : ℚ → ℚ → ℚ → ℚ → ℚ)
    (A : Assignments) (vehiclesL : List (String × Vehicle)) (depots : List Depot)
    (locRows : List LocRow) (vid : String) : ℚ :=
  match alookup A vid with
  | none => 0
  | some locs =>
    let dep := compute_depot_for_vehicle (vehicleFor vehiclesL vid) depots
    (locs.map (fun lid =>
      let r := (rowFor locRows lid).getD defaultLocRow
      hav dep.lat dep.lon r.lat r.lon)).sum

/-- First alternative vehicle in the location's ranking that is not
the current vehicle and is allowed (the for-loop with continue and
break over ranking_by_loc[lid]). -/
def firstAlt (allowed : List String) (ranking : String → List String)
    (vid lid : String) : Option String :=
  ((ranking lid).filter (fun alt => decide (alt ≠ vid) && decide (alt ∈ allowed))).head?

/-! ### The four phases of enforce_constraints -/

/-- Common shape of the reassignment loops: append each location to
the vehicle chosen for it (none meaning the location is dropped). -/
def move_fold (f : String → Option String) (A : Assignments) (l : List String) :
    Assignments :=
  l.foldl (fun B lid => match f lid with
    | none => B
    | some target => setdefault_append B target lid) A

/-- Lines 59-67: vehicles of a disallowed type hand each location to
the first allowed vehicle of its ranking (dropping it when none) and
are then emptied.  Iterates over a snapshot of the keys. -/
def disallowed_pass (allowed : List String) (ranking : String → List String)
    (A0 : Assignments) : Assignments :=
  (A0.map Prod.fst).foldl (fun A vid =>
    if vid ∈ allowed then A
    else
      let moved := move_fold
        (fun lid => ((ranking lid).filter (fun v => decide (v ∈ allowed))).head?)
        A (aget A vid)
      aset moved vid []) A0

/-- Lines 69-85: per allowed vehicle, sort its list by priority (in
place, so the sort persists even without overflow), then move stops
beyond max_stops to the first allowed alternative of their ranking. -/
def stops_pass (allowed : List String) (ranking : String → List String)
    (prio : String → ℤ) (ph : Bool) (max_stops : ℕ) (A0 : Assignments) : Assignments :=
  allowed.foldl (fun A vid =>
    let locs0 := aget A vid
    if locs0 = [] then A
    else
      let locs := if ph then ssort (fun a b => decide (prio a ≤ prio b)) locs0 else locs0
      if max_stops < locs.length then
        let A1 := aset A vid (locs.take max_stops)
        move_fold (firstAlt allowed ranking vid) A1 (locs.drop max_stops)
      else aset A vid locs) A0

/-- One iteration of the removal loop: take the location off the
vehicle's (live) list and append it to the first allowed alternative
of its ranking, if any. -/
def cap_move (allowed : List String) (ranking : String → List String)
    (vid : String) (B : Assignments) (lid : String) : Assignments :=
  let B1 := aset B vid ((aget B vid).erase lid)
  match firstAlt allowed ranking vid lid with
  | none => B1
  | some alt => setdefault_append B1 alt lid

/-- Lines 90-105, one vehicle: when the assigned demand exceeds the
capacity beyond the 1e-6 tolerance, walk the list sorted descending by
(priority, -demand), removing every location and appending it to the
first allowed alternative of its ranking (or dropping it).  The final
write assignments[vid] = locs re-stores the (now empty) list. -/
def capacity_vehicle_step (allowed : List String) (ranking : String → List String)
    (demand : String → ℚ) (prio : String → ℤ) (cap : ℚ) (vid : String)
    (A : Assignments) : Assignments × Bool :=
  let locs := aget A vid
  let total := (locs.map demand).sum
  if total ≤ cap + capTol then (A, false)
  else
    let sorted := ssort (fun a b =>
      decide (prio b < prio a ∨ (prio a = prio b ∧ demand a ≤ demand b))) locs
    let A1 := sorted.foldl (cap_move allowed ranking vid) A
    (aset A1 vid (aget A1 vid), true)

def capacity_pass (allowed : List String) (ranking : String → List String)
    (demand : String → ℚ) (prio : String → ℤ) (capOf : String → ℚ)
    (A : Assignments) : Assignments × Bool :=
  allowed.foldl (fun st vid =>
    let r := capacity_vehicle_step allowed ranking demand prio (capOf vid) vid st.1
    (r.1, st.2 || r.2)) (A, false)

/-- Lines 87-105: repeat capacity passes while something changed; the
wall-clock timeout is one unit of fuel per pass. -/
def capacity_loop (allowed : List String) (ranking : String → List String)
    (demand : String → ℚ) (prio : String → ℤ) (capOf : String → ℚ) :
    ℕ → Assignments → Assignments
  | 0, A => A
  | fuel + 1, A =>
    let r := capacity_pass allowed ranking demand prio capOf A
    if r.2 then capacity_loop allowed ranking demand prio capOf fuel r.1 else r.1

/-- Distance and time test of lines 113-115 against the running
estimate (recomputed from the current assignments, with which the
carried total_dist dict always agrees at the points it is read). -/
def dist_within (hav : ℚ → ℚ → ℚ → ℚ → ℚ) (vehiclesL : List (String × Vehicle))
    (depots : List Depot) (locRows : List LocRow) (maxDist maxTime : ℚ)
    (A : Assignments) (vid : String) : Bool :=
  let d := estimate_total_distance_km hav A vehiclesL depots locRows vid
  decide (d ≤ maxDist + capTol) && decide (d / 30 ≤ maxTime + capTol)

/-- Lines 122-136: remove locations in descending priority order,
reassigning each to the first allowed alternative, until the vehicle
is back within the distance and time budgets. -/
def distance_remove_loop (hav : ℚ → ℚ → ℚ → ℚ → ℚ)
    (vehiclesL : List (String × Vehicle)) (depots : List Depot)
    (locRows : List LocRow) (maxDist maxTime : ℚ) (allowed : List String)
    (ranking : String → List String) (vid : String) :
    List String → Assignments → Bool → Assignments × Bool
  | [], A, removedAny => (A, removedAny)
  | lid :: rest, A, removedAny =>
    if lid ∈ aget A vid then
      let A2 := cap_move allowed ranking vid A lid
      if dist_within hav vehiclesL depots locRows maxDist maxTime A2 vid then (A2, true)
      else distance_remove_loop hav vehiclesL depots locRows maxDist maxTime allowed
        ranking vid rest A2 true
    else distance_remove_loop hav vehiclesL depots locRows maxDist maxTime allowed
      ranking vid rest A removedAny

def distance_vehicle_step (hav : ℚ → ℚ → ℚ → ℚ → ℚ)
    (vehiclesL : List (String × Vehicle)) (depots : List Depot)
    (locRows : List LocRow) (maxDist maxTime : ℚ) (allowed : List String)
    (ranking : String → List String) (prio : String → ℤ)
    (A : Assignments) (vid : String) : Assignments × Bool :=
  if dist_within hav vehiclesL depots locRows maxDist maxTime A vid then (A, false)
  else
    let locs := aget A vid
    if locs = [] then (A, false)
    else
      let sorted := ssort (fun a b => decide (prio b ≤ prio a)) locs
      let r := distance_remove_loop hav vehiclesL depots locRows maxDist maxTime
        allowed ranking vid sorted A false
      (aset r.1 vid (aget r.1 vid), r.2)

def distance_pass (hav : ℚ → ℚ → ℚ → ℚ → ℚ)
    (vehiclesL : List (String × Vehicle)) (depots : List Depot)
    (locRows : List LocRow) (maxDist maxTime : ℚ) (allowed : List String)
    (ranking : String → List String) (prio : String → ℤ)
    (A : Assignments) : Assignments × Bool :=
  allowed.foldl (fun st vid =>
    let r := distance_vehicle_step hav vehiclesL depots locRows maxDist maxTime
      allowed ranking prio st.1 vid
    (r.1, st.2 || r.2)) (A, false)

def distance_loop (hav : ℚ → ℚ → ℚ → ℚ → ℚ)
    (vehiclesL : List (String × Vehicle)) (depots : List Depot)
    (locRows : List LocRow) (maxDist maxTime : ℚ) (allowed : List String)
    (ranking : String → List String) (prio : String → ℤ) :
    ℕ → Assignments → Assignments
  | 0, A => A
  | fuel + 1, A =>
    let r := distance_pass hav vehiclesL depots locRows maxDist maxTime allowed
      ranking prio A
    if r.2 then
      distance_loop hav vehiclesL depots locRows maxDist maxTime allowed ranking
        prio fuel r.1
    else r.1

/-- Lines 53-54: allowed_vehicles, the vehicle ids whose type is in
allowed_vehicle_types, in dict order. -/
def allowedOf (vehiclesL : List (String × Vehicle)) (cons : Constraints) :
    List String :=
  (vehiclesL.filter
    (fun p => decide (p.2.vtype ∈ cons.allowed_vehicle_types))).map Prod.fst

/-- Embedding of enforce_constraints.  Membership of a location in the
assigned set is countAll > 0; unassigned is the sorted list of the
distinct input location ids not assigned anywhere. -/
def enforce_constraints (hav : ℚ → ℚ → ℚ → ℚ → ℚ) (capFuel distFuel : ℕ)
    (assignments : Assignments) (ranking : String → List String)
    (vehiclesL : List (String × Vehicle)) (depots : List Depot)
    (locRows : List LocRow) (cons : Constraints) : Assignments × List String :=
  let allowed := allowedOf vehiclesL cons
  let demand := demand_by_loc locRows
  let prio := prio_by_loc locRows
  let capOf := fun vid => (vehicleFor vehiclesL vid).capacity
  let A0 := disallowed_pass allowed ranking assignments
  let A1 := stops_pass allowed ranking prio cons.priority_handling
    cons.max_stops_per_vehicle A0
  let A2 := capacity_loop allowed ranking demand prio capOf capFuel A1
  let A3 := distance_loop hav vehiclesL depots locRows cons.max_distance_per_vehicle
    cons.max_time_per_vehicle allowed ranking prio distFuel A2
  let all_locs := (locRows.map (fun r => r.location_id)).dedup
  let unassigned := ssort (fun a b => decide (a ≤ b))
    (all_locs.filter (fun lid => decide (countAll A3 lid = 0)))
  (A3, unassigned)

/-! ### The assignment tail of optimize_vrp
(src/quantum/optimizer.py lines 84-89) -/

/-- Line 86-87: best_vid = order_ids[0] if order_ids else
vehicle_ids[0]; assignments[best_vid].append(lid). -/
def initial_step (vehicle_ids : List String) (A : Assignments)
    (p : String × List String) : Assignments :=
  let best := match p.2 with
    | [] => vehicle_ids.headD ""
    | v :: _ => v
  dict_append A best p.1

/-- Lines 84-87: start every vehicle with an empty list, then append
each location to the head of its ranking (or to the first vehicle when
the ranking is empty). -/
def initial_assignments (vehicle_ids : List String)
    (rankingList : List (String × List String)) : Assignments :=
  rankingList.foldl (initial_step vehicle_ids)
    (vehicle_ids.map (fun vid => (vid, ([] : List String))))

/-- Lines 84-89: the initial greedy assignment followed by the
constraint engine, with ranking_by_loc_id read as a dict. -/
def optimize_vrp_assign (hav : ℚ → ℚ → ℚ → ℚ → ℚ) (capFuel distFuel : ℕ)
    (vehiclesL : List (String × Vehicle)) (depots : List Depot)
    (locRows : List LocRow) (cons : Constraints)
    (rankingList : List (String × List String)) : Assignments × List String :=
  let vehicle_ids := vehiclesL.map Prod.fst
  let A := initial_assignments vehicle_ids rankingList
  enforce_constraints hav capFuel distFuel A
    (fun lid => (alookup rankingList lid).getD []) vehiclesL depots locRows cons

/-! ### Counting lemmas for the assignment dictionary -/

theorem countAll_nil (x : String) : countAll [] x = 0 := rfl

theorem countAll_cons (k : String) (v : List String) (t : Assignments) (x : String) :
    countAll ((k, v) :: t) x = v.count x + countAll t x := by
  simp [countAll]

theorem countAll_setdefault (A : Assignments) (k y x : String) :
    countAll (setdefault_append A k y) x =
      countAll A x + (if y = x then 1 else 0) := by
  induction A with
  | nil =>
    by_cases hxy : y = x
    · subst hxy
      simp [setdefault_append, countAll]
    · simp [setdefault_append, countAll, List.count_cons, hxy]
  | cons p t ih =>
    obtain ⟨k', w⟩ := p
    by_cases h : k' = k
    · by_cases hxy : y = x
      · subst hxy
        simp [setdefault_append, h, countAll_cons, List.count_append]
        omega
      · simp [setdefault_append, h, countAll_cons, List.count_append,
          List.count_cons, hxy]
    · simp only [setdefault_append, if_neg h, countAll_cons, ih]
      omega

theorem countAll_aset (A : Assignments) (k : String) (v : List String) (x : String) :
    countAll (aset A k v) x + (aget A k).count x = countAll A x + v.count x := by
  induction A with
  | nil => simp [aset, aget, alookup, countAll_cons, countAll_nil]
  | cons p t ih =>
    obtain ⟨k', w⟩ := p
    by_cases h : k' = k
    · simp [aset, aget, alookup, h, countAll_cons]
      omega
    · simp only [aset, if_neg h, aget, alookup, countAll_cons]
      simp only [aget] at ih
      omega

theorem aget_aset_self (A : Assignments) (k : String) (v : List String) :
    aget (aset A k v) k = v := by
  induction A with
  | nil => simp [aset, aget, alookup]
  | cons p t ih =>
    obtain ⟨k', w⟩ := p
    by_cases h : k' = k
    · simp [aset, aget, alookup, h]
    · simp only [aset, if_neg h, aget, alookup]
      simpa [aget] using ih

theorem aget_aset_ne (A : Assignments) (k m : String) (v : List String) (h : k ≠ m) :
    aget (aset A k v) m = aget A m := by
  induction A with
  | nil => simp [aset, aget, alookup, h]
  | cons p t ih =>
    obtain ⟨k', w⟩ := p
    by_cases hk : k' = k
    · subst hk
      simp [aset, aget, alookup, h]
    · simp only [aset, if_neg hk]
      by_cases hm : k' = m
      · simp [aget, alookup, hm]
      · simp only [aget, alookup, if_neg hm]
        exact ih

theorem aget_setdefault_ne (A : Assignments) (k m y : String) (h : k ≠ m) :
    aget (setdefault_append A k y) m = aget A m := by
  induction A with
  | nil => simp [setdefault_append, aget, alookup, h]
  | cons p t ih =>
    obtain ⟨k', w⟩ := p
    by_cases hk : k' = k
    · subst hk
      simp [setdefault_append, aget, alookup, h]
    · simp only [setdefault_append, if_neg hk]
      by_cases hm : k' = m
      · simp [aget, alookup, hm]
      · simp only [aget, alookup, if_neg hm]
        exact ih

theorem aset_alookup_self (A : Assignments) (k : String) (v : List String)
    (h : alookup A k = some v) : aset A k v = A := by
  induction A with
  | nil => simp [alookup] at h
  | cons p t ih =>
    obtain ⟨k', w⟩ := p
    by_cases hk : k' = k
    · simp only [alookup, if_pos hk] at h
      injection h with h
      simp [aset, if_pos hk, hk, h]
    · simp only [alookup, if_neg hk] at h
      simp [aset, hk, ih h]

theorem keys_dict_append (A : Assignments) (k y : String) :
    (dict_append A k y).map Prod.fst = A.map Prod.fst := by
  induction A with
  | nil => rfl
  | cons p t ih =>
    obtain ⟨k', w⟩ := p
    by_cases h : k' = k
    · simp [dict_append, h]
    · simp [dict_append, h, ih]

theorem countAll_dict_append (A : Assignments) (k y x : String) :
    countAll (dict_append A k y) x =
      countAll A x + (if k ∈ A.map Prod.fst ∧ y = x then 1 else 0) := by
  induction A with
  | nil => simp [dict_append, countAll_nil]
  | cons p t ih =>
    obtain ⟨k', w⟩ := p
    by_cases h : k' = k
    · subst h
      by_cases hxy : y = x
      · subst hxy
        simp [dict_append, countAll_cons, List.count_append]
        omega
      · simp [dict_append, countAll_cons, List.count_append, List.count_cons, hxy]
    · simp only [dict_append, if_neg h, countAll_cons, ih, List.map_cons,
        List.mem_cons]
      have hne : ¬ k = k' := fun hh => h hh.symm
      by_cases hmem : k ∈ t.map Prod.fst
      · simp [hmem, hne]
        omega
      · simp [hmem, hne]

/-! ### Per-location multiplicity never increases through the engine -/

theorem mem_of_headq {α : Type} (l : List α) (a : α) (h : l.head? = some a) :
    a ∈ l := by
  cases l with
  | nil => cases h
  | cons b t =>
    injection h with h
    exact h ▸ List.mem_cons_self b t

theorem firstAlt_spec (allowed : List String) (ranking : String → List String)
    (vid lid alt : String) (h : firstAlt allowed ranking vid lid = some alt) :
    alt ≠ vid ∧ alt ∈ allowed := by
  unfold firstAlt at h
  have hmem := mem_of_headq _ _ h
  have hp := List.of_mem_filter hmem
  simpa using hp

theorem allowed_head_spec (allowed : List String) (rk : List String)
    (t : String) (h : (rk.filter (fun v => decide (v ∈ allowed))).head? = some t) :
    t ∈ allowed := by
  have hmem := mem_of_headq _ _ h
  have hp := List.of_mem_filter hmem
  simpa using hp

theorem countAll_move_fold_le (f : String → Option String) (x : String) :
    ∀ (l : List String) (A : Assignments),
      countAll (move_fold f A l) x ≤ countAll A x + l.count x := by
  intro l
  induction l with
  | nil => intro A; simp [move_fold]
  | cons lid rest ih =>
    intro A
    simp only [move_fold, List.foldl_cons]
    rcases hf : f lid with _ | target
    · have := ih A
      simp only [move_fold] at this
      calc countAll (List.foldl _ A rest) x ≤ countAll A x + rest.count x := this
        _ ≤ countAll A x + (lid :: rest).count x :=
            Nat.add_le_add_left (List.count_le_count_cons x lid rest) _
    · have := ih (setdefault_append A target lid)
      simp only [move_fold] at this
      calc countAll (List.foldl _ (setdefault_append A target lid) rest) x
          ≤ countAll (setdefault_append A target lid) x + rest.count x := this
        _ ≤ countAll A x + (lid :: rest).count x := by
            rw [countAll_setdefault]
            by_cases hlx : lid = x <;> simp [List.count_cons, hlx] <;> omega

theorem aget_move_fold_ne (f : String → Option String) (m : String)
    (hf : ∀ lid alt, f lid = some alt → alt ≠ m) :
    ∀ (l : List String) (A : Assignments), aget (move_fold f A l) m = aget A m := by
  intro l
  induction l with
  | nil => intro A; rfl
  | cons lid rest ih =>
    intro A
    simp only [move_fold, List.foldl_cons]
    rcases hfl : f lid with _ | target
    · exact ih A
    · have := ih (setdefault_append A target lid)
      simp only [move_fold] at this
      rw [this, aget_setdefault_ne _ _ _ _ (hf lid target hfl)]

theorem countAll_aset_get_self (A : Assignments) (k : String) (x : String) :
    countAll (aset A k (aget A k)) x = countAll A x := by
  have := countAll_aset A k (aget A k) x
  omega

theorem countAll_foldl_le (g : Assignments → String → Assignments) (x : String)
    (hg : ∀ A v, countAll (g A v) x ≤ countAll A x) :
    ∀ (l : List String) (A : Assignments), countAll (l.foldl g A) x ≤ countAll A x := by
  intro l
  induction l with
  | nil => intro A; exact le_rfl
  | cons v rest ih =>
    intro A
    exact le_trans (ih (g A v)) (hg A v)

theorem countAll_disallowed_pass_le (allowed : List String)
    (ranking : String → List String) (A0 : Assignments) (x : String) :
    countAll (disallowed_pass allowed ranking A0) x ≤ countAll A0 x := by
  unfold disallowed_pass
  refine countAll_foldl_le _ x ?_ _ A0
  intro A vid
  by_cases hv : vid ∈ allowed
  · simp [hv]
  · simp only [hv, if_false]
    set f : String → Option String :=
      fun lid => ((ranking lid).filter (fun v => decide (v ∈ allowed))).head? with hfdef
    have hne : ∀ lid alt, f lid = some alt → alt ≠ vid := by
      intro lid alt h
      intro heq
      exact hv (heq ▸ allowed_head_spec allowed (ranking lid) alt h)
    have hget : aget (move_fold f A (aget A vid)) vid = aget A vid :=
      aget_move_fold_ne f vid hne (aget A vid) A
    have hmono := countAll_move_fold_le f x (aget A vid) A
    have hset := countAll_aset (move_fold f A (aget A vid)) vid [] x
    rw [hget] at hset
    have hcount : (aget A vid).count x ≤ countAll A x + (aget A vid).count x := by omega
    simp only [List.count_nil] at hset
    omega

theorem count_take_drop (l : List String) (n : ℕ) (x : String) :
    (l.take n).count x + (l.drop n).count x = l.count x := by
  conv_rhs => rw [← List.take_append_drop n l]
  rw [List.count_append]

theorem countAll_stops_pass_le (allowed : List String)
    (ranking : String → List String) (prio : String → ℤ) (ph : Bool)
    (max_stops : ℕ) (A0 : Assignments) (x : String) :
    countAll (stops_pass allowed ranking prio ph max_stops A0) x ≤ countAll A0 x := by
  unfold stops_pass
  refine countAll_foldl_le _ x ?_ _ A0
  intro A vid
  by_cases h0 : aget A vid = []
  · simp [h0]
  · simp only [h0, if_false]
    set locs := if ph then ssort (fun a b => decide (prio a ≤ prio b)) (aget A vid)
      else aget A vid with hlocs
    have hcnt : locs.count x = (aget A vid).count x := by
      rw [hlocs]
      by_cases hph : ph
      · simp [hph, count_ssort]
      · simp [hph]
    by_cases hover : max_stops < locs.length
    · simp only [hover, if_true]
      have hne : ∀ lid alt, firstAlt allowed ranking vid lid = some alt → alt ≠ vid :=
        fun lid alt h => (firstAlt_spec allowed ranking vid lid alt h).1
      have hmono := countAll_move_fold_le (firstAlt allowed ranking vid) x
        (locs.drop max_stops) (aset A vid (locs.take max_stops))
      have hset := countAll_aset A vid (locs.take max_stops) x
      have hsplit := count_take_drop locs max_stops x
      omega
    · simp only [hover, if_false]
      have hset := countAll_aset A vid locs x
      omega

theorem aget_cap_move (allowed : List String) (ranking : String → List String)
    (vid : String) (A : Assignments) (lid : String) :
    aget (cap_move allowed ranking vid A lid) vid = (aget A vid).erase lid := by
  unfold cap_move
  rcases halt : firstAlt allowed ranking vid lid with _ | alt
  · simp only [halt]
    exact aget_aset_self A vid _
  · simp only [halt]
    rw [aget_setdefault_ne _ _ _ _ (firstAlt_spec _ _ _ _ _ halt).1, aget_aset_self]

theorem countAll_cap_move_le (allowed : List String) (ranking : String → List String)
    (vid : String) (A : Assignments) (lid x : String)
    (hmem : lid = x → x ∈ aget A vid) :
    countAll (cap_move allowed ranking vid A lid) x ≤ countAll A x := by
  have h1 := countAll_aset A vid ((aget A vid).erase lid) x
  by_cases hlx : lid = x
  · subst hlx
    specialize hmem rfl
    have herase : ((aget A vid).erase lid).count lid = (aget A vid).count lid - 1 :=
      List.count_erase_self lid (aget A vid)
    have hge : 1 ≤ (aget A vid).count lid := List.count_pos_iff.mpr hmem
    unfold cap_move
    rcases halt : firstAlt allowed ranking vid lid with _ | alt
    · simp only [halt]
      omega
    · simp only [halt]
      rw [countAll_setdefault]
      have hif : (if lid = lid then (1 : ℕ) else 0) = 1 := by simp
      omega
  · have herase : ((aget A vid).erase lid).count x = (aget A vid).count x := by
      refine List.count_erase_of_ne ?_ _
      exact fun he => hlx he.symm
    unfold cap_move
    rcases halt : firstAlt allowed ranking vid lid with _ | alt
    · simp only [halt]
      omega
    · simp only [halt]
      rw [countAll_setdefault]
      simp only [if_neg hlx]
      omega

theorem count_invariant_cap_move (allowed : List String)
    (ranking : String → List String) (vid : String) (A : Assignments)
    (lid x : String) (rest : List String)
    (h : (lid :: rest).count x ≤ (aget A vid).count x) :
    rest.count x ≤ (aget (cap_move allowed ranking vid A lid) vid).count x := by
  rw [aget_cap_move]
  by_cases hlx : lid = x
  · subst hlx
    rw [List.count_erase_self]
    rw [List.count_cons_self] at h
    omega
  · rw [List.count_erase_of_ne (fun he => hlx he.symm)]
    rw [List.count_cons_of_ne (fun he => hlx he.symm)] at h
    exact h

theorem countAll_cap_fold_le (allowed : List String)
    (ranking : String → List String) (vid x : String) :
    ∀ (sorted : List String) (A : Assignments),
      sorted.count x ≤ (aget A vid).count x →
      countAll (sorted.foldl (cap_move allowed ranking vid) A) x ≤ countAll A x := by
  intro sorted
  induction sorted with
  | nil => intro A _; exact le_rfl
  | cons lid rest ih =>
    intro A h
    simp only [List.foldl_cons]
    have hmem : lid = x → x ∈ aget A vid := by
      intro hlx
      subst hlx
      rw [List.count_cons_self] at h
      exact List.count_pos_iff.mp (by omega)
    refine le_trans (ih (cap_move allowed ranking vid A lid)
      (count_invariant_cap_move allowed ranking vid A lid x rest h)) ?_
    exact countAll_cap_move_le allowed ranking vid A lid x hmem

theorem countAll_capacity_vehicle_step_le (allowed : List String)
    (ranking : String → List String) (demand : String → ℚ) (prio : String → ℤ)
    (cap : ℚ) (vid : String) (A : Assignments) (x : String) :
    countAll (capacity_vehicle_step allowed ranking demand prio cap vid A).1 x ≤
      countAll A x := by
  unfold capacity_vehicle_step
  set lst := ssort (fun a b =>
      decide (prio b < prio a ∨ (prio a = prio b ∧ demand a ≤ demand b)))
      (aget A vid) with hlst
  by_cases hc : ((aget A vid).map demand).sum ≤ cap + capTol
  · simp [hc]
  · simp only [hc, if_false]
    have hfold := countAll_cap_fold_le allowed ranking vid x lst A
      (le_of_eq (by rw [hlst]; exact count_ssort _ _ x))
    have hself := countAll_aset_get_self
      (List.foldl (cap_move allowed ranking vid) A lst) vid x
    exact le_trans (le_of_eq hself) hfold

theorem countAll_pair_foldl_le (step : Assignments × Bool → String → Assignments × Bool)
    (x : String)
    (hstep : ∀ st vid, countAll (step st vid).1 x ≤ countAll st.1 x) :
    ∀ (l : List String) (st : Assignments × Bool),
      countAll ((l.foldl step st).1) x ≤ countAll st.1 x := by
  intro l
  induction l with
  | nil => intro st; exact le_rfl
  | cons v rest ih =>
    intro st
    exact le_trans (ih (step st v)) (hstep st v)

theorem countAll_capacity_pass_le (allowed : List String)
    (ranking : String → List String) (demand : String → ℚ) (prio : String → ℤ)
    (capOf : String → ℚ) (A : Assignments) (x : String) :
    countAll (capacity_pass allowed ranking demand prio capOf A).1 x ≤ countAll A x := by
  unfold capacity_pass
  refine countAll_pair_foldl_le _ x ?_ allowed (A, false)
  intro st vid
  simpa using countAll_capacity_vehicle_step_le allowed ranking demand prio
    (capOf vid) vid st.1 x

theorem countAll_capacity_loop_le (allowed : List String)
    (ranking : String → List String) (demand : String → ℚ) (prio : String → ℤ)
    (capOf : String → ℚ) (x : String) :
    ∀ (fuel : ℕ) (A : Assignments),
      countAll (capacity_loop allowed ranking demand prio capOf fuel A) x ≤
        countAll A x := by
  intro fuel
  induction fuel with
  | zero => intro A; exact le_rfl
  | succ f ih =>
    intro A
    simp only [capacity_loop]
    split
    · exact le_trans (ih _) (countAll_capacity_pass_le _ _ _ _ _ A x)
    · exact countAll_capacity_pass_le _ _ _ _ _ A x

theorem countAll_distance_remove_loop_le (hav : ℚ → ℚ → ℚ → ℚ → ℚ)
    (vehiclesL : List (String × Vehicle)) (depots : List Depot)
    (locRows : List LocRow) (maxDist maxTime : ℚ) (allowed : List String)
    (ranking : String → List String) (vid x : String) :
    ∀ (sorted : List String) (A : Assignments) (b : Bool),
      sorted.count x ≤ (aget A vid).count x →
      countAll (distance_remove_loop hav vehiclesL depots locRows maxDist maxTime
        allowed ranking vid sorted A b).1 x ≤ countAll A x := by
  intro sorted
  induction sorted with
  | nil => intro A b _; exact le_rfl
  | cons lid rest ih =>
    intro A b h
    unfold distance_remove_loop
    by_cases hmem : lid ∈ aget A vid
    · simp only [hmem, if_true]
      have hstep := countAll_cap_move_le allowed ranking vid A lid x
        (fun hlx => hlx ▸ hmem)
      have hinv := count_invariant_cap_move allowed ranking vid A lid x rest h
      split
      · exact hstep
      · exact le_trans (ih (cap_move allowed ranking vid A lid) true hinv) hstep
    · simp only [hmem, if_false]
      refine ih A b ?_
      calc rest.count x ≤ (lid :: rest).count x := List.count_le_count_cons x lid rest
        _ ≤ (aget A vid).count x := h

theorem countAll_distance_vehicle_step_le (hav : ℚ → ℚ → ℚ → ℚ → ℚ)
    (vehiclesL : List (String × Vehicle)) (depots : List Depot)
    (locRows : List LocRow) (maxDist maxTime : ℚ) (allowed : List String)
    (ranking : String → List String) (prio : String → ℤ)
    (A : Assignments) (vid x : String) :
    countAll (distance_vehicle_step hav vehiclesL depots locRows maxDist maxTime
      allowed ranking prio A vid).1 x ≤ countAll A x := by
  unfold distance_vehicle_step
  by_cases hw : dist_within hav vehiclesL depots locRows maxDist maxTime A vid = true
  · simp [hw]
  · simp only [hw, if_false, Bool.false_eq_true]
    by_cases h0 : aget A vid = []
    · simp [h0]
    · simp only [h0, if_false]
      set lst := ssort (fun a b => decide (prio b ≤ prio a)) (aget A vid) with hlst
      have hloop := countAll_distance_remove_loop_le hav vehiclesL depots locRows
        maxDist maxTime allowed ranking vid x lst A false
        (le_of_eq (by rw [hlst]; exact count_ssort _ _ x))
      have hself := countAll_aset_get_self
        (distance_remove_loop hav vehiclesL depots locRows maxDist maxTime
          allowed ranking vid lst A false).1 vid x
      exact le_trans (le_of_eq hself) hloop

theorem countAll_distance_pass_le (hav : ℚ → ℚ → ℚ → ℚ → ℚ)
    (vehiclesL : List (String × Vehicle)) (depots : List Depot)
    (locRows : List LocRow) (maxDist maxTime : ℚ) (allowed : List String)
    (ranking : String → List String) (prio : String → ℤ)
    (A : Assignments) (x : String) :
    countAll (distance_pass hav vehiclesL depots locRows maxDist maxTime allowed
      ranking prio A).1 x ≤ countAll A x := by
  unfold distance_pass
  refine countAll_pair_foldl_le _ x ?_ allowed (A, false)
  intro st vid
  simpa using countAll_distance_vehicle_step_le hav vehiclesL depots locRows
    maxDist maxTime allowed ranking prio st.1 vid x

theorem countAll_distance_loop_le (hav : ℚ → ℚ → ℚ → ℚ → ℚ)
    (vehiclesL : List (String × Vehicle)) (depots : List Depot)
    (locRows : List LocRow) (maxDist maxTime : ℚ) (allowed : List String)
    (ranking : String → List String) (prio : String → ℤ) (x : String) :
    ∀ (fuel : ℕ) (A : Assignments),
      countAll (distance_loop hav vehiclesL depots locRows maxDist maxTime allowed
        ranking prio fuel A) x ≤ countAll A x := by
  intro fuel
  induction fuel with
  | zero => intro A; exact le_rfl
  | succ f ih =>
    intro A
    simp only [distance_loop]
    split
    · exact le_trans (ih _) (countAll_distance_pass_le _ _ _ _ _ _ _ _ _ A x)
    · exact countAll_distance_pass_le _ _ _ _ _ _ _ _ _ A x

/-- Through the whole engine the multiplicity of any location id never
increases. -/
theorem countAll_enforce_le (hav : ℚ → ℚ → ℚ → ℚ → ℚ) (capFuel distFuel : ℕ)
    (assignments : Assignments) (ranking : String → List String)
    (vehiclesL : List (String × Vehicle)) (depots : List Depot)
    (locRows : List LocRow) (cons : Constraints) (x : String) :
    countAll (enforce_constraints hav capFuel distFuel assignments ranking vehiclesL
      depots locRows cons).1 x ≤ countAll assignments x := by
  unfold enforce_constraints
  refine le_trans (countAll_distance_loop_le _ _ _ _ _ _ _ _ _ x _ _) ?_
  refine le_trans (countAll_capacity_loop_le _ _ _ _ _ x _ _) ?_
  exact le_trans (countAll_stops_pass_le _ _ _ _ _ _ x)
    (countAll_disallowed_pass_le _ _ _ x)

/-! ### The returned unassigned list -/

theorem count_eq_one_of_nodup (l : List String) (h : l.Nodup) (a : String)
    (ha : a ∈ l) : l.count a = 1 := by
  have h1 := List.nodup_iff_count_le_one.mp h a
  have h2 := List.count_pos_iff.mpr ha
  omega

theorem unassigned_count (A3 : Assignments) (locIds : List String) (x : String)
    (hx : x ∈ locIds) :
    (ssort (fun a b => decide (a ≤ b))
      ((locIds.dedup).filter (fun lid => decide (countAll A3 lid = 0)))).count x =
      (if countAll A3 x = 0 then 1 else 0) := by
  rw [count_ssort]
  by_cases h : countAll A3 x = 0
  · rw [if_pos h, List.count_filter (by simp [h]), List.count_dedup, if_pos hx]
  · rw [if_neg h]
    refine List.count_eq_zero.mpr ?_
    intro hmem
    have hp := (List.mem_filter.mp hmem).2
    simp only [decide_eq_true_eq] at hp
    exact h hp

/-- The unassigned list returned by the engine holds every input
location id whose multiplicity in the final assignment is zero,
exactly once, and no location that is still assigned. -/
theorem enforce_unassigned_spec (hav : ℚ → ℚ → ℚ → ℚ → ℚ) (capFuel distFuel : ℕ)
    (assignments : Assignments) (ranking : String → List String)
    (vehiclesL : List (String × Vehicle)) (depots : List Depot)
    (locRows : List LocRow) (cons : Constraints) (x : String)
    (hx : x ∈ locRows.map (fun r => r.location_id)) :
    ((enforce_constraints hav capFuel distFuel assignments ranking vehiclesL depots
        locRows cons).2).count x =
      (if countAll (enforce_constraints hav capFuel distFuel assignments ranking
        vehiclesL depots locRows cons).1 x = 0 then 1 else 0) := by
  unfold enforce_constraints
  exact unassigned_count _ _ x hx

/-! ### Multiplicity of every location in the initial assignment -/

theorem headD_mem (l : List String) (h : l ≠ []) : l.headD "" ∈ l := by
  cases l with
  | nil => exact absurd rfl h
  | cons a t => simp [List.headD]

theorem countAll_empty_lists (vehicle_ids : List String) (x : String) :
    countAll (vehicle_ids.map (fun vid => (vid, ([] : List String)))) x = 0 := by
  induction vehicle_ids with
  | nil => rfl
  | cons v t ih => simp [countAll_cons, ih]

theorem keys_empty_lists (vehicle_ids : List String) :
    (vehicle_ids.map (fun vid => (vid, ([] : List String)))).map Prod.fst =
      vehicle_ids := by
  simp [List.map_map, Function.comp_def]

theorem countAll_initial_fold (vehicle_ids : List String) (x : String)
    (hv : vehicle_ids ≠ []) :
    ∀ (rl : List (String × List String)) (A : Assignments),
      A.map Prod.fst = vehicle_ids →
      (∀ p ∈ rl, p.2 ≠ [] → p.2.headD "" ∈ vehicle_ids) →
      countAll (rl.foldl (initial_step vehicle_ids) A) x =
        countAll A x + (rl.map Prod.fst).count x := by
  intro rl
  induction rl with
  | nil => intro A _ _; simp
  | cons p rest ih =>
    intro A hk hheads
    simp only [List.foldl_cons]
    have hbest : (match p.2 with
        | [] => vehicle_ids.headD ""
        | v :: _ => v) ∈ vehicle_ids := by
      rcases hp2 : p.2 with _ | ⟨v, l'⟩
      · exact headD_mem vehicle_ids hv
      · have := hheads p (List.mem_cons_self p rest) (by simp [hp2])
        simpa [hp2] using this
    have hkeys2 : (initial_step vehicle_ids A p).map Prod.fst = vehicle_ids := by
      unfold initial_step
      rw [keys_dict_append]
      exact hk
    rw [ih (initial_step vehicle_ids A p) hkeys2
      (fun q hq => hheads q (List.mem_cons_of_mem p hq))]
    unfold initial_step
    rw [countAll_dict_append]
    have hmem : (match p.2 with
        | [] => vehicle_ids.headD ""
        | v :: _ => v) ∈ A.map Prod.fst := by rw [hk]; exact hbest
    by_cases hpx : p.1 = x
    · simp only [List.map_cons, List.count_cons, hmem, hpx, true_and, if_pos rfl]
      simp
      omega
    · simp only [List.map_cons, List.count_cons, hmem, true_and, if_neg hpx]
      have : ¬ (p.1 == x) = true := by simpa using hpx
      simp [this]

theorem countAll_initial (vehicle_ids : List String)
    (rankingList : List (String × List String)) (x : String)
    (hv : vehicle_ids ≠ [])
    (hheads : ∀ p ∈ rankingList, p.2 ≠ [] → p.2.headD "" ∈ vehicle_ids) :
    countAll (initial_assignments vehicle_ids rankingList) x =
      (rankingList.map Prod.fst).count x := by
  unfold initial_assignments
  rw [countAll_initial_fold vehicle_ids x hv rankingList _
    (keys_empty_lists vehicle_ids) hheads, countAll_empty_lists]
  omega

/-- Claim C1: at the end of a successful optimize_vrp call on an input
with unique location ids and nonempty vehicle and depot lists, every
input location id occurs in the returned assignments' lists plus the
returned unassigned list exactly once in total: in exactly one
vehicle's list or in unassigned, never both, never neither. -/
theorem C1_location_partition (hav : ℚ → ℚ → ℚ → ℚ → ℚ) (capFuel distFuel : ℕ)
    (vehiclesL : List (String × Vehicle)) (depots : List Depot)
    (locRows : List LocRow) (cons : Constraints)
    (rankingList : List (String × List String)) (lid : String)
    (hveh : vehiclesL ≠ []) (hdep : depots ≠ [])
    (huniq : (locRows.map (fun r => r.location_id)).Nodup)
    (hkeys : rankingList.map Prod.fst = locRows.map (fun r => r.location_id))
    (hheads : ∀ p ∈ rankingList, p.2 ≠ [] → p.2.headD "" ∈ vehiclesL.map Prod.fst)
    (hlid : lid ∈ locRows.map (fun r => r.location_id)) :
    countAll (optimize_vrp_assign hav capFuel distFuel vehiclesL depots locRows
        cons rankingList).1 lid +
      ((optimize_vrp_assign hav capFuel distFuel vehiclesL depots locRows cons
        rankingList).2).count lid = 1 := by
  have hvids : vehiclesL.map Prod.fst ≠ [] := by
    intro h
    rw [List.map_eq_nil_iff] at h
    exact hveh h
  have hinit : countAll (initial_assignments (vehiclesL.map Prod.fst) rankingList)
      lid = 1 := by
    rw [countAll_initial _ _ _ hvids hheads, hkeys]
    exact count_eq_one_of_nodup _ huniq lid hlid
  have hle := countAll_enforce_le hav capFuel distFuel
    (initial_assignments (vehiclesL.map Prod.fst) rankingList)
    (fun l => (alookup rankingList l).getD []) vehiclesL depots locRows cons lid
  rw [hinit] at hle
  have hun := enforce_unassigned_spec hav capFuel distFuel
    (initial_assignments (vehiclesL.map Prod.fst) rankingList)
    (fun l => (alookup rankingList l).getD []) vehiclesL depots locRows cons lid hlid
  show countAll (enforce_constraints hav capFuel distFuel
      (initial_assignments (vehiclesL.map Prod.fst) rankingList)
      (fun l => (alookup rankingList l).getD []) vehiclesL depots locRows
      cons).1 lid +
    ((enforce_constraints hav capFuel distFuel
      (initial_assignments (vehiclesL.map Prod.fst) rankingList)
      (fun l => (alookup rankingList l).getD []) vehiclesL depots locRows
      cons).2).count lid = 1
  rw [hun]
  by_cases h0 : countAll (enforce_constraints hav capFuel distFuel
      (initial_assignments (vehiclesL.map Prod.fst) rankingList)
      (fun l => (alookup rankingList l).getD []) vehiclesL depots locRows cons).1
      lid = 0
  · rw [if_pos h0, h0]
  · rw [if_neg h0]
    omega

/-- Witness for C1_location_partition on a two-vehicle, two-location
instance with a constant-zero haversine. -/
theorem C1_location_partition_witness :
    countAll (optimize_vrp_assign (fun _ _ _ _ => 0) 1 1
        [("t1", ⟨100, "small", "d1"⟩), ("t2", ⟨100, "medium", "d1"⟩)]
        [⟨"d1", 0, 0⟩]
        [⟨"a", 0, 0, 1, 1⟩, ⟨"b", 0, 0, 1, 2⟩]
        ⟨4, 100, 100, true, ["small", "medium", "large"]⟩
        [("a", ["t1", "t2"]), ("b", ["t2", "t1"])]).1 "a" +
      ((optimize_vrp_assign (fun _ _ _ _ => 0) 1 1
        [("t1", ⟨100, "small", "d1"⟩), ("t2", ⟨100, "medium", "d1"⟩)]
        [⟨"d1", 0, 0⟩]
        [⟨"a", 0, 0, 1, 1⟩, ⟨"b", 0, 0, 1, 2⟩]
        ⟨4, 100, 100, true, ["small", "medium", "large"]⟩
        [("a", ["t1", "t2"]), ("b", ["t2", "t1"])]).2).count "a" = 1 :=
  C1_location_partition (fun _ _ _ _ => 0) 1 1
    [("t1", ⟨100, "small", "d1"⟩), ("t2", ⟨100, "medium", "d1"⟩)]
    [⟨"d1", 0, 0⟩]
    [⟨"a", 0, 0, 1, 1⟩, ⟨"b", 0, 0, 1, 2⟩]
    ⟨4, 100, 100, true, ["small", "medium", "large"]⟩
    [("a", ["t1", "t2"]), ("b", ["t2", "t1"])] "a"
    (by simp) (by simp) (by decide) (by decide) (by decide) (by decide)

/-! ### The capacity repair loop empties the violating vehicle -/

theorem aget_cap_fold_of_perm (allowed : List String)
    (ranking : String → List String) (vid : String) :
    ∀ (sorted : List String) (A : Assignments), sorted.Perm (aget A vid) →
      aget (sorted.foldl (cap_move allowed ranking vid) A) vid = [] := by
  intro sorted
  induction sorted with
  | nil =>
    intro A h
    simpa using (List.Perm.nil_eq h).symm
  | cons lid rest ih =>
    intro A h
    simp only [List.foldl_cons]
    refine ih (cap_move allowed ranking vid A lid) ?_
    rw [aget_cap_move]
    have herase := (h.symm).erase lid
    simpa using herase.symm

/-- Claim C9: when a vehicle is over capacity beyond the 1e-6
tolerance, its repair step removes every location currently on it (the
loop does not stop once back within capacity), each removed location
being appended to the first allowed alternative of its ranking or
dropped (that reassignment is the cap_move in the fold), so right
after its own repair step the vehicle's list is empty and the pass
records a change. -/
theorem C9_capacity_repair_empties (allowed : List String)
    (ranking : String → List String) (demand : String → ℚ) (prio : String → ℤ)
    (cap : ℚ) (vid : String) (A : Assignments)
    (hover : ¬ ((aget A vid).map demand).sum ≤ cap + capTol) :
    aget (capacity_vehicle_step allowed ranking demand prio cap vid A).1 vid = [] ∧
    (capacity_vehicle_step allowed ranking demand prio cap vid A).2 = true := by
  unfold capacity_vehicle_step
  simp only [hover, if_false]
  refine ⟨?_, by trivial⟩
  rw [aget_aset_self]
  exact aget_cap_fold_of_perm allowed ranking vid _ A (ssort_perm _ _)

/-- Witness for C9_capacity_repair_empties: a vehicle with two
locations of demand 10 each against capacity 5 ends its repair step
with an empty list. -/
theorem C9_capacity_repair_empties_witness :
    aget (capacity_vehicle_step ["v1"] (fun _ => []) (fun _ => 10) (fun _ => 0) 5
      "v1" [("v1", ["a", "b"])]).1 "v1" = [] ∧
    (capacity_vehicle_step ["v1"] (fun _ => []) (fun _ => 10) (fun _ => 0) 5
      "v1" [("v1", ["a", "b"])]).2 = true := by
  refine C9_capacity_repair_empties ["v1"] (fun _ => []) (fun _ => 10) (fun _ => 0)
    5 "v1" [("v1", ["a", "b"])] ?_
  have hget : aget [("v1", ["a", "b"])] "v1" = ["a", "b"] := rfl
  rw [hget]
  norm_num [capTol]

/-! ### Identity of the engine within all budgets -/

theorem foldl_fix_on (g : Assignments → String → Assignments) (A : Assignments) :
    ∀ (l : List String), (∀ v ∈ l, g A v = A) → l.foldl g A = A := by
  intro l
  induction l with
  | nil => intro _; rfl
  | cons v rest ih =>
    intro h
    simp only [List.foldl_cons, h v (List.mem_cons_self v rest)]
    exact ih (fun w hw => h w (List.mem_cons_of_mem v hw))

theorem pair_foldl_fix_on (step : Assignments × Bool → String → Assignments × Bool)
    (A : Assignments) :
    ∀ (l : List String), (∀ v ∈ l, step (A, false) v = (A, false)) →
      l.foldl step (A, false) = (A, false) := by
  intro l
  induction l with
  | nil => intro _; rfl
  | cons v rest ih =>
    intro h
    simp only [List.foldl_cons, h v (List.mem_cons_self v rest)]
    exact ih (fun w hw => h w (List.mem_cons_of_mem v hw))

theorem alookup_of_aget_ne_nil (A : Assignments) (k : String)
    (h : aget A k ≠ []) : alookup A k = some (aget A k) := by
  unfold aget at *
  cases halookup : alookup A k with
  | none => rw [halookup] at h; simp at h
  | some v => rfl

theorem disallowed_pass_id (allowed : List String)
    (ranking : String → List String) (A : Assignments)
    (h : ∀ p ∈ A, p.1 ∈ allowed) :
    disallowed_pass allowed ranking A = A := by
  unfold disallowed_pass
  refine foldl_fix_on _ A (A.map Prod.fst) ?_
  intro v hv
  rcases List.mem_map.mp hv with ⟨p, hp, rfl⟩
  simp only [if_pos (h p hp)]

theorem stops_pass_id (allowed : List String) (ranking : String → List String)
    (prio : String → ℤ) (ph : Bool) (max_stops : ℕ) (A : Assignments)
    (hsorted : ph = true → ∀ vid ∈ allowed,
      (aget A vid).Pairwise (fun a b => decide (prio a ≤ prio b) = true))
    (hstops : ∀ vid ∈ allowed, (aget A vid).length ≤ max_stops) :
    stops_pass allowed ranking prio ph max_stops A = A := by
  unfold stops_pass
  refine foldl_fix_on _ A allowed ?_
  intro v hv
  by_cases h0 : aget A v = []
  · simp [h0]
  · simp only [h0, if_false]
    have hlocs : (if ph then ssort (fun a b => decide (prio a ≤ prio b)) (aget A v)
        else aget A v) = aget A v := by
      by_cases hph : ph
      · simp only [hph, if_true]
        exact ssort_of_pairwise _ _ (hsorted hph v hv)
      · simp [hph]
    rw [hlocs]
    rw [if_neg (by have := hstops v hv; omega)]
    exact aset_alookup_self A v (aget A v) (alookup_of_aget_ne_nil A v h0)

theorem capacity_vehicle_step_within (allowed : List String)
    (ranking : String → List String) (demand : String → ℚ) (prio : String → ℤ)
    (cap : ℚ) (vid : String) (A : Assignments)
    (h : ((aget A vid).map demand).sum ≤ cap + capTol) :
    capacity_vehicle_step allowed ranking demand prio cap vid A = (A, false) := by
  unfold capacity_vehicle_step
  simp [h]

theorem capacity_pass_within (allowed : List String)
    (ranking : String → List String) (demand : String → ℚ) (prio : String → ℤ)
    (capOf : String → ℚ) (A : Assignments)
    (h : ∀ vid ∈ allowed, ((aget A vid).map demand).sum ≤ capOf vid + capTol) :
    capacity_pass allowed ranking demand prio capOf A = (A, false) := by
  unfold capacity_pass
  refine pair_foldl_fix_on _ A allowed ?_
  intro v hv
  simp [capacity_vehicle_step_within allowed ranking demand prio (capOf v) v A
    (h v hv)]

theorem capacity_loop_id (allowed : List String) (ranking : String → List String)
    (demand : String → ℚ) (prio : String → ℤ) (capOf : String → ℚ)
    (A : Assignments)
    (hpass : capacity_pass allowed ranking demand prio capOf A = (A, false)) :
    ∀ fuel, capacity_loop allowed ranking demand prio capOf fuel A = A := by
  intro fuel
  cases fuel with
  | zero => rfl
  | succ f => simp [capacity_loop, hpass]

theorem distance_vehicle_step_within (hav : ℚ → ℚ → ℚ → ℚ → ℚ)
    (vehiclesL : List (String × Vehicle)) (depots : List Depot)
    (locRows : List LocRow) (maxDist maxTime : ℚ) (allowed : List String)
    (ranking : String → List String) (prio : String → ℤ)
    (A : Assignments) (vid : String)
    (h : dist_within hav vehiclesL depots locRows maxDist maxTime A vid = true) :
    distance_vehicle_step hav vehiclesL depots locRows maxDist maxTime allowed
      ranking prio A vid = (A, false) := by
  unfold distance_vehicle_step
  simp [h]

theorem distance_pass_within (hav : ℚ → ℚ → ℚ → ℚ → ℚ)
    (vehiclesL : List (String × Vehicle)) (depots : List Depot)
    (locRows : List LocRow) (maxDist maxTime : ℚ) (allowed : List String)
    (ranking : String → List String) (prio : String → ℤ) (A : Assignments)
    (h : ∀ vid ∈ allowed,
      dist_within hav vehiclesL depots locRows maxDist maxTime A vid = true) :
    distance_pass hav vehiclesL depots locRows maxDist maxTime allowed ranking
      prio A = (A, false) := by
  unfold distance_pass
  refine pair_foldl_fix_on _ A allowed ?_
  intro v hv
  simp [distance_vehicle_step_within hav vehiclesL depots locRows maxDist maxTime
    allowed ranking prio A v (h v hv)]

theorem distance_loop_id (hav : ℚ → ℚ → ℚ → ℚ → ℚ)
    (vehiclesL : List (String × Vehicle)) (depots : List Depot)
    (locRows : List LocRow) (maxDist maxTime : ℚ) (allowed : List String)
    (ranking : String → List String) (prio : String → ℤ) (A : Assignments)
    (hpass : distance_pass hav vehiclesL depots locRows maxDist maxTime allowed
      ranking prio A = (A, false)) :
    ∀ fuel, distance_loop hav vehiclesL depots locRows maxDist maxTime allowed
      ranking prio fuel A = A := by
  intro fuel
  cases fuel with
  | zero => rfl
  | succ f => simp [distance_loop, hpass]

/-- Claim C2 (amended): the engine returns the identical assignment
map when every key is an allowed-type vehicle and every vehicle is
within the stop, capacity, distance and time budgets, provided each
vehicle's list is already in ascending-priority order (or priority
handling is disabled); without that proviso the engine still re-sorts
lists by priority. -/
theorem C2_engine_idempotent (hav : ℚ → ℚ → ℚ → ℚ → ℚ) (capFuel distFuel : ℕ)
    (A : Assignments) (ranking : String → List String)
    (vehiclesL : List (String × Vehicle)) (depots : List Depot)
    (locRows : List LocRow) (cons : Constraints)
    (hkeys : ∀ p ∈ A, p.1 ∈ allowedOf vehiclesL cons)
    (hsorted : cons.priority_handling = true → ∀ vid ∈ allowedOf vehiclesL cons,
      (aget A vid).Pairwise
        (fun a b => decide (prio_by_loc locRows a ≤ prio_by_loc locRows b) = true))
    (hstops : ∀ vid ∈ allowedOf vehiclesL cons,
      (aget A vid).length ≤ cons.max_stops_per_vehicle)
    (hcap : ∀ vid ∈ allowedOf vehiclesL cons,
      ((aget A vid).map (demand_by_loc locRows)).sum ≤
        (vehicleFor vehiclesL vid).capacity + capTol)
    (hdist : ∀ vid ∈ allowedOf vehiclesL cons,
      dist_within hav vehiclesL depots locRows cons.max_distance_per_vehicle
        cons.max_time_per_vehicle A vid = true) :
    (enforce_constraints hav capFuel distFuel A ranking vehiclesL depots locRows
      cons).1 = A := by
  have h0 : disallowed_pass (allowedOf vehiclesL cons) ranking A = A :=
    disallowed_pass_id _ ranking A hkeys
  have h1 : stops_pass (allowedOf vehiclesL cons) ranking (prio_by_loc locRows)
      cons.priority_handling cons.max_stops_per_vehicle A = A :=
    stops_pass_id _ _ _ _ _ A hsorted hstops
  have h2 : capacity_loop (allowedOf vehiclesL cons) ranking
      (demand_by_loc locRows) (prio_by_loc locRows)
      (fun vid => (vehicleFor vehiclesL vid).capacity) capFuel A = A :=
    capacity_loop_id _ _ _ _ _ A
      (capacity_pass_within _ _ _ _ _ A hcap) capFuel
  have h3 : distance_loop hav vehiclesL depots locRows
      cons.max_distance_per_vehicle cons.max_time_per_vehicle
      (allowedOf vehiclesL cons) ranking (prio_by_loc locRows) distFuel A = A :=
    distance_loop_id _ _ _ _ _ _ _ _ _ A
      (distance_pass_within _ _ _ _ _ _ _ _ _ A hdist) distFuel
  have hsplit : (enforce_constraints hav capFuel distFuel A ranking vehiclesL
      depots locRows cons).1 =
      distance_loop hav vehiclesL depots locRows cons.max_distance_per_vehicle
        cons.max_time_per_vehicle (allowedOf vehiclesL cons) ranking
        (prio_by_loc locRows) distFuel
        (capacity_loop (allowedOf vehiclesL cons) ranking (demand_by_loc locRows)
          (prio_by_loc locRows) (fun vid => (vehicleFor vehiclesL vid).capacity)
          capFuel
          (stops_pass (allowedOf vehiclesL cons) ranking (prio_by_loc locRows)
            cons.priority_handling cons.max_stops_per_vehicle
            (disallowed_pass (allowedOf vehiclesL cons) ranking A))) := rfl
  rw [hsplit, h0, h1, h2, h3]

/-- Witness for C2_engine_idempotent: one allowed vehicle, two
locations already listed in ascending priority order, all budgets met
(constant-zero haversine), and the engine returns the map unchanged. -/
theorem C2_engine_idempotent_witness :
    (enforce_constraints (fun _ _ _ _ => 0) 1 1 [("v1", ["b", "a"])]
      (fun _ => ["v1"]) [("v1", ⟨100, "small", "d1"⟩)] [⟨"d1", 0, 0⟩]
      [⟨"a", 0, 0, 1, 2⟩, ⟨"b", 0, 0, 1, 1⟩]
      ⟨4, 100, 100, true, ["small", "medium", "large"]⟩).1 =
      [("v1", ["b", "a"])] := by
  refine C2_engine_idempotent (fun _ _ _ _ => 0) 1 1 [("v1", ["b", "a"])]
    (fun _ => ["v1"]) [("v1", ⟨100, "small", "d1"⟩)] [⟨"d1", 0, 0⟩]
    [⟨"a", 0, 0, 1, 2⟩, ⟨"b", 0, 0, 1, 1⟩]
    ⟨4, 100, 100, true, ["small", "medium", "large"]⟩
    (by decide) (by decide) (by decide) ?_ ?_
  · intro vid hvid
    have hv : vid = "v1" := by
      simpa [allowedOf] using hvid
    subst hv
    have hmap : (aget [("v1", ["b", "a"])] "v1").map
        (demand_by_loc [⟨"a", 0, 0, 1, 2⟩, ⟨"b", 0, 0, 1, 1⟩]) = [1, 1] := rfl
    rw [hmap]
    show (1 : ℚ) + (1 + 0) ≤ (vehicleFor [("v1", ⟨100, "small", "d1"⟩)] "v1").capacity + capTol
    have hcapv : (vehicleFor [("v1", ⟨100, "small", "d1"⟩)] "v1").capacity = 100 := rfl
    rw [hcapv]
    norm_num [capTol]
  · intro vid hvid
    have hv : vid = "v1" := by
      simpa [allowedOf] using hvid
    subst hv
    have hest : estimate_total_distance_km (fun _ _ _ _ => 0) [("v1", ["b", "a"])]
        [("v1", ⟨100, "small", "d1"⟩)] [⟨"d1", 0, 0⟩]
        [⟨"a", 0, 0, 1, 2⟩, ⟨"b", 0, 0, 1, 1⟩] "v1" = 0 + (0 + 0) := rfl
    unfold dist_within
    rw [hest]
    norm_num [capTol]

/-- Claim C2 as frozen is false: on a within-budget assignment whose
single vehicle's list is not in ascending priority order, the engine
re-sorts the list in place and returns a different map.  All budgets
hold at the input (allowed type, 2 stops of 4, demand 2 of 100,
constant-zero distances), yet the output list order changes. -/
theorem C2_priority_sort_counterexample :
    allowedOf [("v1", ⟨100, "small", "d1"⟩)]
      ⟨4, 100, 100, true, ["small", "medium", "large"]⟩ = ["v1"] ∧
    (aget [("v1", ["a", "b"])] "v1").length ≤ 4 ∧
    ((aget [("v1", ["a", "b"])] "v1").map
      (demand_by_loc [⟨"a", 0, 0, 1, 2⟩, ⟨"b", 0, 0, 1, 1⟩])).sum ≤
      (vehicleFor [("v1", ⟨100, "small", "d1"⟩)] "v1").capacity + capTol ∧
    dist_within (fun _ _ _ _ => 0) [("v1", ⟨100, "small", "d1"⟩)] [⟨"d1", 0, 0⟩]
      [⟨"a", 0, 0, 1, 2⟩, ⟨"b", 0, 0, 1, 1⟩] 100 100 [("v1", ["a", "b"])]
      "v1" = true ∧
    (enforce_constraints (fun _ _ _ _ => 0) 1 1 [("v1", ["a", "b"])]
      (fun _ => ["v1"]) [("v1", ⟨100, "small", "d1"⟩)] [⟨"d1", 0, 0⟩]
      [⟨"a", 0, 0, 1, 2⟩, ⟨"b", 0, 0, 1, 1⟩]
      ⟨4, 100, 100, true, ["small", "medium", "large"]⟩).1 ≠
      [("v1", ["a", "b"])] := by
  refine ⟨by decide, by decide, ?_, ?_, ?_⟩
  · have hmap : (aget [("v1", ["a", "b"])] "v1").map
        (demand_by_loc [⟨"a", 0, 0, 1, 2⟩, ⟨"b", 0, 0, 1, 1⟩]) = [1, 1] := rfl
    rw [hmap]
    show (1 : ℚ) + (1 + 0) ≤ (vehicleFor [("v1", ⟨100, "small", "d1"⟩)] "v1").capacity + capTol
    have hcapv : (vehicleFor [("v1", ⟨100, "small", "d1"⟩)] "v1").capacity = 100 := rfl
    rw [hcapv]
    norm_num [capTol]
  · have hest : estimate_total_distance_km (fun _ _ _ _ => 0) [("v1", ["a", "b"])]
        [("v1", ⟨100, "small", "d1"⟩)] [⟨"d1", 0, 0⟩]
        [⟨"a", 0, 0, 1, 2⟩, ⟨"b", 0, 0, 1, 1⟩] "v1" = 0 + (0 + 0) := rfl
    unfold dist_within
    rw [hest]
    norm_num [capTol]
  · have h0 : disallowed_pass ["v1"] (fun _ => ["v1"]) [("v1", ["a", "b"])] =
        [("v1", ["a", "b"])] := by decide
    have h1 : stops_pass ["v1"] (fun _ => ["v1"])
        (prio_by_loc [⟨"a", 0, 0, 1, 2⟩, ⟨"b", 0, 0, 1, 1⟩]) true 4
        [("v1", ["a", "b"])] = [("v1", ["b", "a"])] := by decide
    have hcap1 : ∀ vid ∈ (["v1"] : List String),
        ((aget [("v1", ["b", "a"])] vid).map
          (demand_by_loc [⟨"a", 0, 0, 1, 2⟩, ⟨"b", 0, 0, 1, 1⟩])).sum ≤
          (vehicleFor [("v1", ⟨100, "small", "d1"⟩)] vid).capacity + capTol := by
      intro vid hvid
      have hv : vid = "v1" := by simpa using hvid
      subst hv
      have hmap : (aget [("v1", ["b", "a"])] "v1").map
          (demand_by_loc [⟨"a", 0, 0, 1, 2⟩, ⟨"b", 0, 0, 1, 1⟩]) = [1, 1] := rfl
      rw [hmap]
      show (1 : ℚ) + (1 + 0) ≤
        (vehicleFor [("v1", ⟨100, "small", "d1"⟩)] "v1").capacity + capTol
      have hcapv : (vehicleFor [("v1", ⟨100, "small", "d1"⟩)] "v1").capacity =
        100 := rfl
      rw [hcapv]
      norm_num [capTol]
    have h2 : capacity_loop ["v1"] (fun _ => ["v1"])
        (demand_by_loc [⟨"a", 0, 0, 1, 2⟩, ⟨"b", 0, 0, 1, 1⟩])
        (prio_by_loc [⟨"a", 0, 0, 1, 2⟩, ⟨"b", 0, 0, 1, 1⟩])
        (fun vid => (vehicleFor [("v1", ⟨100, "small", "d1"⟩)] vid).capacity) 1
        [("v1", ["b", "a"])] = [("v1", ["b", "a"])] :=
      capacity_loop_id _ _ _ _ _ _ (capacity_pass_within _ _ _ _ _ _ hcap1) 1
    have hdist1 : ∀ vid ∈ (["v1"] : List String),
        dist_within (fun _ _ _ _ => 0) [("v1", ⟨100, "small", "d1"⟩)]
          [⟨"d1", 0, 0⟩] [⟨"a", 0, 0, 1, 2⟩, ⟨"b", 0, 0, 1, 1⟩] 100 100
          [("v1", ["b", "a"])] vid = true := by
      intro vid hvid
      have hv : vid = "v1" := by simpa using hvid
      subst hv
      have hest : estimate_total_distance_km (fun _ _ _ _ => 0)
          [("v1", ["b", "a"])] [("v1", ⟨100, "small", "d1"⟩)] [⟨"d1", 0, 0⟩]
          [⟨"a", 0, 0, 1, 2⟩, ⟨"b", 0, 0, 1, 1⟩] "v1" = 0 + (0 + 0) := rfl
      unfold dist_within
      rw [hest]
      norm_num [capTol]
    have h3 : distance_loop (fun _ _ _ _ => 0) [("v1", ⟨100, "small", "d1"⟩)]
        [⟨"d1", 0, 0⟩] [⟨"a", 0, 0, 1, 2⟩, ⟨"b", 0, 0, 1, 1⟩] 100 100 ["v1"]
        (fun _ => ["v1"])
        (prio_by_loc [⟨"a", 0, 0, 1, 2⟩, ⟨"b", 0, 0, 1, 1⟩]) 1
        [("v1", ["b", "a"])] = [("v1", ["b", "a"])] :=
      distance_loop_id _ _ _ _ _ _ _ _ _ _
        (distance_pass_within _ _ _ _ _ _ _ _ _ _ hdist1) 1
    have hsplit : (enforce_constraints (fun _ _ _ _ => 0) 1 1
        [("v1", ["a", "b"])] (fun _ => ["v1"]) [("v1", ⟨100, "small", "d1"⟩)]
        [⟨"d1", 0, 0⟩] [⟨"a", 0, 0, 1, 2⟩, ⟨"b", 0, 0, 1, 1⟩]
        ⟨4, 100, 100, true, ["small", "medium", "large"]⟩).1 =
        distance_loop (fun _ _ _ _ => 0) [("v1", ⟨100, "small", "d1"⟩)]
          [⟨"d1", 0, 0⟩] [⟨"a", 0, 0, 1, 2⟩, ⟨"b", 0, 0, 1, 1⟩] 100 100 ["v1"]
          (fun _ => ["v1"])
          (prio_by_loc [⟨"a", 0, 0, 1, 2⟩, ⟨"b", 0, 0, 1, 1⟩]) 1
          (capacity_loop ["v1"] (fun _ => ["v1"])
            (demand_by_loc [⟨"a", 0, 0, 1, 2⟩, ⟨"b", 0, 0, 1, 1⟩])
            (prio_by_loc [⟨"a", 0, 0, 1, 2⟩, ⟨"b", 0, 0, 1, 1⟩])
            (fun vid => (vehicleFor [("v1", ⟨100, "small", "d1"⟩)] vid).capacity)
            1
            (stops_pass ["v1"] (fun _ => ["v1"])
              (prio_by_loc [⟨"a", 0, 0, 1, 2⟩, ⟨"b", 0, 0, 1, 1⟩]) true 4
              (disallowed_pass ["v1"] (fun _ => ["v1"])
                [("v1", ["a", "b"])]))) := rfl
    rw [hsplit, h0, h1, h2, h3]
    decide
